import Mathlib

/-!
Verification of the task-orchestration engine of the `starlight` repository
(`src/starlight-form-agent/src/lib/agentic-workflow.ts`).

The TypeScript source is shallowly embedded: classes holding mutable state
become Lean structures with explicit state passing; the external capabilities
(the OpenAI "reasoning" calls together with their `parseJson` post-processing,
the Playwright browser routines, and the wall clock) are modelled as oracle
parameters supplied to each operation.  JS `unknown` values are modelled by a
small JSON-like `Value` type; JS object payloads recorded in the audit history
are encoded compactly (the history is never read by control logic).  The
`Date.now()` / `Math.random()` freshness source used by `generateId()` and the
ISO timestamps is modelled by a monotone counter `ctr` threaded through the
context manager; timestamps are `Nat` values drawn from it.
-/

namespace Starlight

/-- Values standing in for TypeScript `unknown`.  Structured JS values
(arrays, objects) are encoded with nested `pair`s; the orchestration logic
never inspects them, it only stores and forwards them. -/
inductive Value where
  | null : Value
  | bool (b : Bool) : Value
  | num (n : Int) : Value
  | str (s : String) : Value
  | pair (a b : Value) : Value
deriving DecidableEq, Repr

/-- Encoding of a JS array as a `Value`. -/
def Value.ofList (vs : List Value) : Value := vs.foldr Value.pair Value.null

/-- `AgentRole` from `types/agents.ts`. -/
inductive AgentRole where
  | orchestrator | planner | reviewer | researcher | executor
deriving DecidableEq, Repr

/-- `TaskStatus` from `types/agents.ts`. -/
inductive TaskStatus where
  | pending | in_progress | needs_review | approved | rejected | completed | failed
deriving DecidableEq, Repr

/-- `TaskResult` from `types/agents.ts`. -/
structure TaskResult where
  success : Bool
  data : Option Value
  error : Option String
  reviewNotes : Option String
deriving DecidableEq, Repr

/-- `Task` from `types/agents.ts`.  The source casts the parsed priority string
without validation (`t.priority as 'low'|'medium'|'high'`), so arbitrary
strings inhabit the field at runtime; it is therefore modelled as `String`. -/
structure Task where
  id : String
  description : String
  status : TaskStatus
  assignedAgent : Option AgentRole
  priority : String
  dependencies : Option (List String)
  result : Option TaskResult
  createdAt : Nat
  updatedAt : Nat
deriving DecidableEq, Repr

/-- `Plan` from `types/agents.ts`. -/
structure Plan where
  id : String
  goal : String
  tasks : List Task
  estimatedSteps : Nat
  createdAt : Nat
deriving DecidableEq, Repr

/-- `Review` from `types/agents.ts`. -/
structure Review where
  taskId : String
  approved : Bool
  feedback : String
  suggestions : Option (List String)
  reviewedAt : Nat
deriving DecidableEq, Repr

/-- `MemoryItem` from `types/agents.ts` (the optional `ttl` field is declared
in the source but never written nor read, and is omitted). -/
structure MemoryItem where
  id : String
  key : String
  value : Value
  source : AgentRole
  timestamp : Nat
deriving DecidableEq, Repr

/-- `ContextState` from `types/agents.ts`. -/
structure ContextState where
  isLoggedIn : Bool
  currentPage : Option String
  selectedCarer : Option String
  formData : Option Value
  lastError : Option String
deriving DecidableEq, Repr

/-- A `Partial<ContextState>` argument to `updateState`: `some` fields are the
keys present in the update object and overwrite the state by JS spread. -/
structure StateUpdate where
  isLoggedIn : Option Bool := none
  currentPage : Option String := none
  selectedCarer : Option String := none
  formData : Option Value := none
  lastError : Option String := none
deriving DecidableEq, Repr

/-- `{...state, ...updates}`. -/
def applyStateUpdate (u : StateUpdate) (s : ContextState) : ContextState :=
  { isLoggedIn := u.isLoggedIn.getD s.isLoggedIn
    currentPage := match u.currentPage with | some p => some p | none => s.currentPage
    selectedCarer := match u.selectedCarer with | some c => some c | none => s.selectedCarer
    formData := match u.formData with | some f => some f | none => s.formData
    lastError := match u.lastError with | some e => some e | none => s.lastError }

/-- `HistoryEntry` from `types/agents.ts`; `input`/`output` are audit-only
payloads, recorded as compact `Value` encodings. -/
structure HistoryEntry where
  id : String
  agent : AgentRole
  action : String
  input : Option Value
  output : Option Value
  timestamp : Nat
deriving DecidableEq, Repr

/-- Message type of `AgentMessage`. -/
inductive MessageType where
  | request | response | notification | error
deriving DecidableEq, Repr

/-- `AgentMessage` from `types/agents.ts` (`from`/`to` are renamed
`fromRole`/`toRole` because `from` is a Lean keyword). -/
structure AgentMessage where
  fromRole : AgentRole
  toRole : AgentRole
  type : MessageType
  content : String
  payload : Option Value
  timestamp : Nat
deriving DecidableEq, Repr

/-- `WorkflowConfig` from `types/agents.ts`. -/
structure WorkflowConfig where
  maxIterations : Nat
  requireReview : Bool
  autoRetry : Bool
  retryLimit : Nat
  timeout : Nat
deriving DecidableEq, Repr

/-- `DEFAULT_CONFIG` in `agentic-workflow.ts`. -/
def DEFAULT_CONFIG : WorkflowConfig :=
  { maxIterations := 15, requireReview := true, autoRetry := true
    retryLimit := 2, timeout := 300000 }

/-- The compiled output of `Orchestrator.compileOutput`. -/
structure CompiledOutput where
  state : ContextState
  results : List (String × Option TaskResult)
  memory : List (String × Value)
deriving DecidableEq, Repr

/-- `WorkflowResult` from `types/agents.ts`.  `duration` is wall-clock time
and is not modelled; `error` is only set on the top-level catch path, which is
unreachable in the model because capability exceptions are already modelled as
failure return values inside `performAction`. -/
structure WorkflowResult where
  success : Bool
  sessionId : String
  goal : String
  completedTasks : Nat
  totalTasks : Nat
  output : Option CompiledOutput
  error : Option String
  history : List HistoryEntry
deriving DecidableEq, Repr

/-- `generateId()` produces a fresh opaque string; modelled from the counter. -/
def genIdStr (n : Nat) : String := "id-" ++ Nat.repr n

/-! ## Shared context manager (`class ContextManager`) -/

/-- The `SharedContext` held by `ContextManager`, plus the freshness counter
`ctr` modelling the `Date.now()` / `Math.random()` source of `generateId` and
of the ISO timestamps. -/
structure ContextManager where
  sessionId : String
  goal : String
  currentPlan : Option Plan
  completedTasks : List Task
  pendingTasks : List Task
  memory : List MemoryItem
  state : ContextState
  history : List HistoryEntry
  ctr : Nat
deriving DecidableEq, Repr

/-- The `ContextManager` constructor. -/
def ContextManager.init (goal : String) : ContextManager :=
  { sessionId := genIdStr 0
    goal := goal
    currentPlan := none
    completedTasks := []
    pendingTasks := []
    memory := []
    state := { isLoggedIn := false, currentPage := none, selectedCarer := none
               formData := none, lastError := none }
    history := []
    ctr := 1 }

/-- `ContextManager.addHistory`: appends an audit entry. -/
def ContextManager.addHistory (cm : ContextManager) (agent : AgentRole)
    (action : String) (input output : Option Value) : ContextManager :=
  { cm with
    history := cm.history ++
      [{ id := genIdStr cm.ctr, agent := agent, action := action
         input := input, output := output, timestamp := cm.ctr }]
    ctr := cm.ctr + 1 }

/-- Compact audit encoding of a `ContextState` (history payloads are never
read by control logic). -/
def encodeState (s : ContextState) : Value :=
  .pair (.bool s.isLoggedIn)
    (.str ((s.currentPage.getD "") ++ "|" ++ (s.selectedCarer.getD "")))

/-- `ContextManager.updateState`: merges the partial update into `state` and
appends a `state_update` history entry. -/
def ContextManager.updateState (cm : ContextManager) (u : StateUpdate) :
    ContextManager :=
  let newState := applyStateUpdate u cm.state
  ContextManager.addHistory { cm with state := newState }
    .orchestrator "state_update" none (some (encodeState newState))

/-- Replace the first memory item with the given key, or push the item at the
end when no item has the key (`findIndex` + assignment / `push` in
`ContextManager.setMemory`). -/
def setMemoryList (item : MemoryItem) : List MemoryItem → List MemoryItem
  | [] => [item]
  | m :: ms => if m.key = item.key then item :: ms else m :: setMemoryList item ms

/-- `ContextManager.setMemory`: keyed last-write-wins store. -/
def ContextManager.setMemory (cm : ContextManager) (key : String) (value : Value)
    (source : AgentRole) : ContextManager :=
  let item : MemoryItem :=
    { id := genIdStr cm.ctr, key := key, value := value
      source := source, timestamp := cm.ctr }
  { cm with memory := setMemoryList item cm.memory, ctr := cm.ctr + 1 }

/-- `ContextManager.getMemory`. -/
def ContextManager.getMemory (cm : ContextManager) (key : String) : Option Value :=
  (cm.memory.find? (fun m => m.key == key)).map (·.value)

/-- `ContextManager.setPlan`: replaces `currentPlan` and reseeds
`pendingTasks` from `plan.tasks` (`[...plan.tasks]`). -/
def ContextManager.setPlan (cm : ContextManager) (plan : Plan) : ContextManager :=
  { cm with currentPlan := some plan, pendingTasks := plan.tasks }

/-- A `Partial<Task>` argument to `updateTask` (only `status`/`result` are
ever passed by the source). -/
structure TaskUpdate where
  status : Option TaskStatus := none
  result : Option TaskResult := none
deriving DecidableEq, Repr

/-- `Object.assign(pending, updates, { updatedAt })`. -/
def applyTaskUpdate (ctr : Nat) (u : TaskUpdate) (t : Task) : Task :=
  { t with status := u.status.getD t.status
           result := match u.result with | some r => some r | none => t.result
           updatedAt := ctr }

/-- Apply `f` to the first task with the given id (`find` + in-place
mutation in `ContextManager.updateTask`). -/
def updateFirstTask (taskId : String) (f : Task → Task) : List Task → List Task
  | [] => []
  | t :: ts => if t.id = taskId then f t :: ts else t :: updateFirstTask taskId f ts

/-- `ContextManager.updateTask`. -/
def ContextManager.updateTask (cm : ContextManager) (taskId : String)
    (u : TaskUpdate) : ContextManager :=
  { cm with pendingTasks := updateFirstTask taskId (applyTaskUpdate cm.ctr u) cm.pendingTasks
            ctr := cm.ctr + 1 }

/-- Remove the first task with the given id, returning it and the remaining
list (`findIndex` + `splice` in `ContextManager.completeTask`). -/
def extractFirst (taskId : String) : List Task → Option (Task × List Task)
  | [] => none
  | t :: ts =>
    if t.id = taskId then some (t, ts)
    else match extractFirst taskId ts with
         | none => none
         | some (u, rest) => some (u, t :: rest)

/-- `ContextManager.completeTask`: moves the task from `pendingTasks` to
`completedTasks`, setting `status = completed` and the result. -/
def ContextManager.completeTask (cm : ContextManager) (taskId : String)
    (result : Option TaskResult) : ContextManager :=
  match extractFirst taskId cm.pendingTasks with
  | none => cm
  | some (task, rest) =>
    let task := { task with status := .completed, result := result, updatedAt := cm.ctr }
    { cm with completedTasks := cm.completedTasks ++ [task]
              pendingTasks := rest
              ctr := cm.ctr + 1 }

/-- `ContextManager.getNextTask`: first pending task whose status is
`pending` or `approved`. -/
def ContextManager.getNextTask (cm : ContextManager) : Option Task :=
  cm.pendingTasks.find? (fun t => t.status == .pending || t.status == .approved)

/-! ## Reasoning-capability parse results

`BaseAgent.think` calls the external reasoning provider and `parseJson`
extracts a JSON payload from the returned text, yielding `null` on failure.
The composition `parseJson(await think(...))` is external to the orchestration
logic and is modelled as an oracle input of type `Option _`; a `none` models a
response in which no JSON structure could be found or parsed.  Fields that the
raw JSON may omit even when parsing succeeds (the TS types promise them, but
`JSON.parse` does not) are `Option` as well. -/

/-- One task record of a parsed planner response. -/
structure ParsedTask where
  description : String
  priority : String
  dependencies : Option (List Nat)
deriving DecidableEq, Repr

/-- A parsed planner response `{ tasks: [...] }`; `tasks := none` models a
payload without a `tasks` field. -/
structure ParsedPlan where
  tasks : Option (List ParsedTask)
deriving DecidableEq, Repr

/-- `parsed?.tasks || []`. -/
def planParsedTasks (p : Option ParsedPlan) : List ParsedTask :=
  (p.bind (·.tasks)).getD []

/-- A parsed reviewer response. -/
structure ParsedReview where
  approved : Option Bool
  feedback : Option String
  suggestions : Option (List String)
deriving DecidableEq, Repr

/-- The `params` object of a parsed executor response (only the keys the
action switch reads). -/
structure ActionParams where
  carerCode : Option String := none
  formData : Option Value := none
  submitType : Option String := none
deriving DecidableEq, Repr

/-- A parsed executor response `{ action, params }`. -/
structure ParsedExec where
  action : Option String
  params : Option ActionParams := none
deriving DecidableEq, Repr

/-- JS `x || default` on an optional string (empty string is falsy). -/
def jsOrStr (o : Option String) (d : String) : String :=
  match o with
  | some s => if s = "" then d else s
  | none => d

/-- `t.map((t, idx) => ...)` with the index made explicit. -/
def mapWithIndex (f : Nat → α → β) : Nat → List α → List β
  | _, [] => []
  | i, a :: as => f i a :: mapWithIndex f (i + 1) as

/-! ## Planner agent -/

/-- Task materialization in `PlannerAgent.createPlan`. -/
def mkPlanTask (ctr idx : Nat) (t : ParsedTask) : Task :=
  { id := "task-" ++ Nat.repr idx
    description := t.description
    status := .pending
    assignedAgent := none
    priority := t.priority
    dependencies := t.dependencies.map (·.map (fun d => "task-" ++ Nat.repr d))
    result := none
    createdAt := ctr
    updatedAt := ctr }

/-- `PlannerAgent.createPlan` (the reasoning call and `parseJson` are the
`parsed` oracle). -/
def PlannerAgent.createPlan (goal : String) (parsed : Option ParsedPlan)
    (cm : ContextManager) : Plan × ContextManager :=
  let cm := cm.addHistory .planner "create_plan" (some (.str goal)) none
  let tasks := mapWithIndex (mkPlanTask cm.ctr) 0 (planParsedTasks parsed)
  let plan : Plan :=
    { id := genIdStr cm.ctr, goal := goal, tasks := tasks
      estimatedSteps := tasks.length, createdAt := cm.ctr }
  let cm := { cm with ctr := cm.ctr + 1 }
  let cm := cm.setPlan plan
  let cm := cm.addHistory .planner "plan_created" none (some (.str plan.id))
  (plan, cm)

/-- Task materialization in `PlannerAgent.revisePlan` (ids `task-r-<idx>`,
no dependencies field). -/
def mkReviseTask (ctr idx : Nat) (t : ParsedTask) : Task :=
  { id := "task-r-" ++ Nat.repr idx
    description := t.description
    status := .pending
    assignedAgent := none
    priority := t.priority
    dependencies := none
    result := none
    createdAt := ctr
    updatedAt := ctr }

/-- `PlannerAgent.revisePlan`: the revised plan's tasks are the current
plan's `completed` tasks followed by the newly parsed tasks, and `setPlan`
reseeds `pendingTasks` from that full list. -/
def PlannerAgent.revisePlan (_feedback : String) (parsed : Option ParsedPlan)
    (cm : ContextManager) : Plan × ContextManager :=
  let currentPlan := cm.currentPlan
  let tasks := mapWithIndex (mkReviseTask cm.ctr) 0 (planParsedTasks parsed)
  let plan : Plan :=
    { id := genIdStr cm.ctr
      goal := (currentPlan.map (·.goal)).getD ""
      tasks := ((currentPlan.map (·.tasks)).getD []).filter
                 (fun t => t.status == .completed) ++ tasks
      estimatedSteps := tasks.length
      createdAt := cm.ctr }
  let cm := { cm with ctr := cm.ctr + 1 }
  let cm := cm.setPlan plan
  (plan, cm)

/-! ## Reviewer agent -/

/-- `parsed?.approved ?? true`: the fail-open default. -/
def reviewApprovedFlag (parsed : Option ParsedReview) : Bool :=
  (parsed.bind (·.approved)).getD true

/-- `ReviewerAgent.reviewTaskResult`: builds the review (fail-open default
on parse failure) and folds the verdict into the task via `updateTask`. -/
def ReviewerAgent.reviewTaskResult (task : Task) (result : Option Value)
    (parsed : Option ParsedReview) (cm : ContextManager) :
    Review × ContextManager :=
  let cm := cm.addHistory .reviewer "review_start" (some (.str task.id)) none
  let review : Review :=
    { taskId := task.id
      approved := reviewApprovedFlag parsed
      feedback := jsOrStr (parsed.bind (·.feedback)) "Review completed"
      suggestions := parsed.bind (·.suggestions)
      reviewedAt := cm.ctr }
  let cm := cm.addHistory .reviewer "review_complete" none (some (.str review.taskId))
  let cm := cm.updateTask task.id
    { status := some (if review.approved then .approved else .rejected)
      result := some { success := review.approved, data := result
                       error := none, reviewNotes := some review.feedback } }
  (review, cm)

/-- `ReviewerAgent.reviewPlan`: pure review of a plan, fail-open default on
parse failure; `ctr` supplies the `reviewedAt` timestamp. -/
def ReviewerAgent.reviewPlan (plan : Plan) (parsed : Option ParsedReview)
    (ctr : Nat) : Review :=
  { taskId := plan.id
    approved := reviewApprovedFlag parsed
    feedback := jsOrStr (parsed.bind (·.feedback)) "Plan approved"
    suggestions := parsed.bind (·.suggestions)
    reviewedAt := ctr }

/-! ## Researcher agent -/

/-- The snapshot returned by `ResearcherAgent.gatherContext`. -/
structure GatheredContext where
  isLoggedIn : Bool
  currentPage : Option String
  selectedCarer : Option String
  carers : Option Value
  formData : Option Value
  previousResults : List (String × Option TaskResult)
deriving DecidableEq, Repr

/-- `ResearcherAgent.gatherContext`: a pure read of state, two memory keys
and the last three completed tasks (`slice(-3)`). -/
def ResearcherAgent.gatherContext (cm : ContextManager) : GatheredContext :=
  { isLoggedIn := cm.state.isLoggedIn
    currentPage := cm.state.currentPage
    selectedCarer := cm.state.selectedCarer
    carers := cm.getMemory "carers"
    formData := cm.state.formData
    previousResults :=
      (cm.completedTasks.drop (cm.completedTasks.length - 3)).map
        (fun t => (t.description, t.result)) }

/-! ## Executor agent

The browser-automation routines imported from `browser-agent.ts` (Playwright
side effects) are external and are modelled by a `BrowserOracle`.  A browser
call that throws is caught by `performAction`'s `try/catch` and converted to
a `success:false` result, so a throwing call is modelled directly by the
corresponding failure return value of the oracle. -/

/-- Oracle for the `browser-agent.ts` routines invoked by `performAction`.
`getPageState` yields the page `url` recorded into `state.currentPage`. -/
structure BrowserOracle where
  login : Bool
  extractCarers : List Value
  selectCarer : String → Bool
  navigateToForm : Bool
  fillForm : Value → Bool
  submitForm : String → Bool × String
  getPageState : String

/-- `if (!parsed?.action)`: the guard of `ExecutorAgent.execute`, `none` when
no `{action, params}` structure was parsed (including a falsy empty action);
otherwise the action together with `parsed.params || {}`. -/
def execGuard (parsed : Option ParsedExec) : Option (String × ActionParams) :=
  match parsed with
  | none => none
  | some p =>
    match p.action with
    | none => none
    | some a => if a = "" then none else some (a, p.params.getD {})

/-- The `{ success, data }` outcome of the `performAction` switch.  The
outcome of every case depends only on the oracle and the parameters, never on
the shared context, so it is factored out of the context effects. -/
def performActionOutcome (action : String) (params : ActionParams)
    (b : BrowserOracle) : Bool × Option Value :=
  if action = "LOGIN" then
    (b.login, some (.pair (.str "isLoggedIn") (.bool b.login)))
  else if action = "GET_CARERS" then
    (decide (0 < b.extractCarers.length), some (.ofList b.extractCarers))
  else if action = "SELECT_CARER" then
    match params.carerCode with
    | none => (false, some (.str "Carer code required"))
    | some code =>
      if code = "" then (false, some (.str "Carer code required"))
      else (b.selectCarer code, some (.pair (.str "selectedCarer") (.str code)))
  else if action = "NAVIGATE_TO_FORM" then
    (b.navigateToForm, none)
  else if action = "FILL_FORM" then
    match params.formData with
    | none => (false, some (.str "Form data required"))
    | some fd =>
      if fd = .null then (false, some (.str "Form data required"))
      else (b.fillForm fd, none)
  else if action = "SUBMIT_FORM" then
    let r := b.submitForm (jsOrStr params.submitType "draft")
    (r.1, some (.str r.2))
  else if action = "GET_STATE" then
    (true, some (.str b.getPageState))
  else
    (false, some (.str ("Unknown action: " ++ action)))

/-- The shared-context side effects of the `performAction` switch
(`updateState` / `setMemory` calls). -/
def performActionCtx (action : String) (params : ActionParams)
    (b : BrowserOracle) (cm : ContextManager) : ContextManager :=
  if action = "LOGIN" then
    cm.updateState { isLoggedIn := some b.login }
  else if action = "GET_CARERS" then
    cm.setMemory "carers" (.ofList b.extractCarers) .executor
  else if action = "SELECT_CARER" then
    match params.carerCode with
    | none => cm
    | some code =>
      if code = "" then cm
      else if b.selectCarer code then cm.updateState { selectedCarer := some code }
      else cm
  else if action = "NAVIGATE_TO_FORM" then
    if b.navigateToForm then cm.updateState { currentPage := some "home_visit_form" }
    else cm
  else if action = "FILL_FORM" then
    match params.formData with
    | none => cm
    | some fd =>
      if fd = .null then cm
      else cm.setMemory "formData" fd .executor
  else if action = "SUBMIT_FORM" then
    cm
  else if action = "GET_STATE" then
    cm.updateState { currentPage := some b.getPageState }
  else
    cm

/-- `ExecutorAgent.performAction`. -/
def performAction (action : String) (params : ActionParams) (b : BrowserOracle)
    (cm : ContextManager) : (Bool × Option Value) × ContextManager :=
  (performActionOutcome action params b, performActionCtx action params b cm)

/-- `ExecutionResult` from `types/agents.ts` with its `ExecutedAction` list
(`type` is always the literal `'browser'`, kept as a `String` field). -/
structure ExecutedAction where
  type : String
  description : String
  success : Bool
  result : Option Value
  timestamp : Nat
deriving DecidableEq, Repr

structure ExecutionResult where
  taskId : String
  success : Bool
  output : Option Value
  actions : List ExecutedAction
  executedAt : Nat
deriving DecidableEq, Repr

/-- `ExecutorAgent.execute`.  Returns the result, the updated context and the
list of automation actions actually dispatched to the browser capability
(empty exactly when the parse guard failed and no automation call was made). -/
def ExecutorAgent.execute (task : Task) (parsed : Option ParsedExec)
    (b : BrowserOracle) (cm : ContextManager) :
    ExecutionResult × ContextManager × List String :=
  let cm := cm.addHistory .executor "execute_start" (some (.str task.id)) none
  match execGuard parsed with
  | none =>
    ({ taskId := task.id, success := false, output := none
       actions := [], executedAt := cm.ctr }, cm, [])
  | some (action, params) =>
    let actionResult := performAction action params b cm
    let success := actionResult.1.1
    let data := actionResult.1.2
    let cm := actionResult.2
    let result : ExecutionResult :=
      { taskId := task.id, success := success, output := data
        actions := [{ type := "browser", description := action, success := success
                      result := data, timestamp := cm.ctr }]
        executedAt := cm.ctr }
    let cm := cm.addHistory .executor "execute_complete" (some (.str action)) none
    (result, cm, [action])

/-! ## Orchestrator

`Orchestrator.run` drives: create plan → (optional) plan review with a single
corrective `revisePlan` pass → the bounded task loop → compile results.  The
loop's `while (iteration < maxIterations)` is modelled by structural recursion
on the remaining fuel `maxIterations - iteration`; `continue` and `break` are
modelled by the retry branch and the `stop` flag of `iterationStep`.  The
wall-clock reading `Date.now() - startTime` sampled by the end-of-iteration
timeout check is the `elapsed` oracle of the iteration. -/

/-- The external inputs consumed by one loop iteration: the executor's parsed
reasoning response, the browser results, the reviewer's parsed response, and
the elapsed wall-clock time at the end-of-iteration timeout check. -/
structure IterOracle where
  execParse : Option ParsedExec
  browser : BrowserOracle
  reviewParse : Option ParsedReview
  elapsed : Nat

/-- All external inputs of one workflow run. -/
structure RunOracles where
  planParse : Option ParsedPlan
  planReviewParse : Option ParsedReview
  reviseParse : Option ParsedPlan
  iter : Nat → IterOracle

/-- The orchestrator-side state: the shared context plus the `messages`
buffer written by `sendMessage`. -/
structure OrchState where
  cm : ContextManager
  messages : List AgentMessage

/-- The `{ success, output }` outcome of the executor at one iteration; by
`performActionOutcome` it does not depend on the shared context. -/
def execOutcome (parsed : Option ParsedExec) (b : BrowserOracle) : Bool × Option Value :=
  match execGuard parsed with
  | none => (false, none)
  | some (action, params) => performActionOutcome action params b

/-- The tail of a loop iteration after the review gate: complete the task on
execution success, or mark it failed and notify the planner; then sample the
timeout.  Returns the new state, the retry counter for the next iteration and
whether the loop `break`s. -/
def completePhase (cfg : WorkflowConfig) (orc : IterOracle) (rc : Nat)
    (task : Task) (execResult : ExecutionResult) (cm : ContextManager)
    (msgs : List AgentMessage) : OrchState × Nat × Bool :=
  let st : OrchState :=
    if execResult.success then
      { cm := cm.completeTask task.id
          (some { success := true, data := execResult.output
                  error := none, reviewNotes := none })
        messages := msgs }
    else
      { cm := cm.updateTask task.id { status := some .failed }
        messages := msgs ++
          [{ fromRole := .executor, toRole := .planner, type := .error
             content := "Task failed", payload := some (.str task.id)
             timestamp := cm.ctr }] }
  (st, rc, decide (cfg.timeout < orc.elapsed))

/-- One iteration of the orchestrator loop on a selected task.  The first
component is the post-iteration state, the second the retry counter passed to
the next iteration, the third whether the loop exits (`break` on timeout);
the retry `continue` path returns `stop = false` and skips the timeout check,
exactly as the source's `continue` does. -/
def iterationStep (cfg : WorkflowConfig) (orc : IterOracle) (rc : Nat)
    (task : Task) (st : OrchState) : OrchState × Nat × Bool :=
  let _gathered := ResearcherAgent.gatherContext st.cm
  let cm := st.cm.updateTask task.id { status := some .in_progress }
  let executed := ExecutorAgent.execute task orc.execParse orc.browser cm
  let execResult := executed.1
  let cm := executed.2.1
  if cfg.requireReview && execResult.success then
    let reviewed := ReviewerAgent.reviewTaskResult task execResult.output orc.reviewParse cm
    let review := reviewed.1
    let cm := reviewed.2
    if !review.approved && (cfg.autoRetry && decide (rc < cfg.retryLimit)) then
      ({ st with cm := cm.updateTask task.id { status := some .pending } }, rc + 1, false)
    else
      completePhase cfg orc (if review.approved then 0 else rc) task execResult cm st.messages
  else
    completePhase cfg orc rc task execResult cm st.messages

/-- The orchestrator task loop (`while (iteration < maxIterations)`), with
`fuel = maxIterations - iteration`; `iteration` indexes the per-iteration
oracles. -/
def runLoop (cfg : WorkflowConfig) (o : Nat → IterOracle) :
    Nat → Nat → Nat → OrchState → OrchState
  | 0, _, _, st => st
  | fuel + 1, iteration, rc, st =>
    match st.cm.getNextTask with
    | none => st
    | some task =>
      let step := iterationStep cfg (o iteration) rc task st
      if step.2.2 then step.1 else runLoop cfg o fuel (iteration + 1) step.2.1 step.1

/-- `Orchestrator.compileOutput`. -/
def compileOutput (cm : ContextManager) : CompiledOutput :=
  { state := cm.state
    results := cm.completedTasks.map (fun t => (t.description, t.result))
    memory := cm.memory.map (fun m => (m.key, m.value)) }

/-- Steps 1–2 of `Orchestrator.run`: create the plan and, when review is
required, review it with a single corrective `revisePlan` pass on rejection. -/
def planningPhase (goal : String) (cfg : WorkflowConfig) (o : RunOracles) :
    ContextManager :=
  let cm := ContextManager.init goal
  let planned := PlannerAgent.createPlan goal o.planParse cm
  let plan := planned.1
  let cm := planned.2
  if cfg.requireReview then
    let planReview := ReviewerAgent.reviewPlan plan o.planReviewParse cm.ctr
    if !planReview.approved then
      (PlannerAgent.revisePlan planReview.feedback o.reviseParse cm).2
    else cm
  else cm

/-- `Orchestrator.run`: the full workflow.  Also returns the final
orchestrator state for inspection (`Orchestrator.getContext`). -/
def Orchestrator.run (goal : String) (cfg : WorkflowConfig) (o : RunOracles) :
    WorkflowResult × OrchState :=
  let cm := planningPhase goal cfg o
  let st := runLoop cfg o.iter cfg.maxIterations 0 0 { cm := cm, messages := [] }
  let finalCtx := st.cm
  ({ success := finalCtx.pendingTasks.length == 0
     sessionId := finalCtx.sessionId
     goal := finalCtx.goal
     completedTasks := finalCtx.completedTasks.length
     totalTasks := ((finalCtx.currentPlan.map (·.tasks.length)).getD 0)
     output := some (compileOutput finalCtx)
     error := none
     history := finalCtx.history }, st)

/-! ## Injectivity of `Nat.repr`

Task ids are the strings `task-<idx>` / `task-r-<idx>`; their uniqueness
reduces to injectivity of the decimal rendering `Nat.repr`, proved here by
relating `Nat.toDigitsCore` to `Nat.digits`. -/

lemma toDigitsCore_eq_digits :
    ∀ (fuel n : Nat) (ds : List Char), 0 < n → n ≤ fuel →
      Nat.toDigitsCore 10 fuel n ds =
        ((Nat.digits 10 n).map Nat.digitChar).reverse ++ ds := by
  intro fuel
  induction fuel with
  | zero => intro n ds h1 h2; omega
  | succ f ih =>
    intro n ds h1 h2
    rw [Nat.toDigitsCore]
    by_cases hdiv : n / 10 = 0
    · rw [if_pos hdiv, Nat.digits_def' (b := 10) (by norm_num) h1, hdiv]
      simp
    · rw [if_neg hdiv]
      have hlt : n / 10 < n := Nat.div_lt_self h1 (by norm_num)
      rw [ih (n / 10) _ (Nat.pos_of_ne_zero hdiv) (by omega)]
      rw [Nat.digits_def' (b := 10) (by norm_num) h1]
      simp [List.append_assoc]

lemma repr_eq_digits (n : Nat) (h : 0 < n) :
    Nat.repr n = (((Nat.digits 10 n).map Nat.digitChar).reverse).asString := by
  show (Nat.toDigits 10 n).asString = _
  rw [Nat.toDigits, toDigitsCore_eq_digits (n + 1) n [] h (Nat.le_succ n)]
  simp

lemma digitChar_injOn :
    ∀ a b : Nat, a < 10 → b < 10 → Nat.digitChar a = Nat.digitChar b → a = b := by
  intro a b ha hb
  interval_cases a <;> interval_cases b <;> decide

lemma map_digitChar_inj :
    ∀ l1 l2 : List Nat, (∀ x ∈ l1, x < 10) → (∀ x ∈ l2, x < 10) →
      l1.map Nat.digitChar = l2.map Nat.digitChar → l1 = l2 := by
  intro l1
  induction l1 with
  | nil =>
    intro l2 _ _ h
    cases l2 with
    | nil => rfl
    | cons b bs => simp at h
  | cons a as ih =>
    intro l2 h1 h2 h
    cases l2 with
    | nil => simp at h
    | cons b bs =>
      simp only [List.map_cons, List.cons.injEq] at h
      have hab : a = b :=
        digitChar_injOn a b (h1 a (List.mem_cons_self a as))
          (h2 b (List.mem_cons_self b bs)) h.1
      have htl : as = bs :=
        ih bs (fun x hx => h1 x (List.mem_cons_of_mem a hx))
          (fun x hx => h2 x (List.mem_cons_of_mem b hx)) h.2
      rw [hab, htl]

lemma asString_inj {l1 l2 : List Char} (h : l1.asString = l2.asString) :
    l1 = l2 := by
  have := congrArg String.data h
  simpa [List.asString] using this

lemma digits_eq_of_repr_eq {m n : Nat} (hm : 0 < m) (hn : 0 < n)
    (h : Nat.repr m = Nat.repr n) : Nat.digits 10 m = Nat.digits 10 n := by
  rw [repr_eq_digits m hm, repr_eq_digits n hn] at h
  have h2 := List.reverse_injective (asString_inj h)
  exact map_digitChar_inj _ _
    (fun x hx => Nat.digits_lt_base (by norm_num) hx)
    (fun x hx => Nat.digits_lt_base (by norm_num) hx) h2

lemma nat_repr_injective : Function.Injective Nat.repr := by
  intro m n h
  rcases Nat.eq_zero_or_pos m with hm | hm
  · rcases Nat.eq_zero_or_pos n with hn | hn
    · omega
    · exfalso
      subst hm
      have h0 : Nat.repr 0 = "0" := rfl
      rw [h0, repr_eq_digits n hn] at h
      have hd : ['0'] = ((Nat.digits 10 n).map Nat.digitChar).reverse :=
        asString_inj h
      have h2 : (Nat.digits 10 n).map Nat.digitChar = [0].map Nat.digitChar := by
        have := congrArg List.reverse hd
        simp at this
        simpa using this.symm
      have h3 : Nat.digits 10 n = [0] :=
        map_digitChar_inj _ _
          (fun x hx => Nat.digits_lt_base (by norm_num) hx)
          (by intro x hx; simp at hx; omega) h2
      have h4 := Nat.ofDigits_digits 10 n
      rw [h3] at h4
      simp [Nat.ofDigits] at h4
      omega
  · rcases Nat.eq_zero_or_pos n with hn | hn
    · exfalso
      subst hn
      have h0 : Nat.repr 0 = "0" := rfl
      rw [h0, repr_eq_digits m hm] at h
      have hd : ((Nat.digits 10 m).map Nat.digitChar).reverse = ['0'] :=
        asString_inj h
      have h2 : (Nat.digits 10 m).map Nat.digitChar = [0].map Nat.digitChar := by
        have := congrArg List.reverse hd
        simp at this
        simpa using this
      have h3 : Nat.digits 10 m = [0] :=
        map_digitChar_inj _ _
          (fun x hx => Nat.digits_lt_base (by norm_num) hx)
          (by intro x hx; simp at hx; omega) h2
      have h4 := Nat.ofDigits_digits 10 m
      rw [h3] at h4
      simp [Nat.ofDigits] at h4
      omega
    · have hd := digits_eq_of_repr_eq hm hn h
      have h4 := Nat.ofDigits_digits 10 m
      rw [hd, Nat.ofDigits_digits] at h4
      omega

lemma string_append_left_cancel {a b c : String} (h : a ++ b = a ++ c) :
    b = c := by
  have hd := congrArg String.data h
  rw [String.data_append, String.data_append] at hd
  have h2 := List.append_cancel_left hd
  cases b
  cases c
  exact congrArg String.mk h2

lemma prefixed_repr_inj (pre : String) {i j : Nat}
    (h : pre ++ Nat.repr i = pre ++ Nat.repr j) : i = j :=
  nat_repr_injective (string_append_left_cancel h)

/-! ## Task bookkeeping: ids and the two task collections -/

/-- The ids of all tasks across the two collections. -/
def taskIds (cm : ContextManager) : List String :=
  (cm.completedTasks ++ cm.pendingTasks).map Task.id

/-- The task-collection invariant: across `completedTasks` and
`pendingTasks`, all task ids are distinct (which in particular makes the two
collections disjoint). -/
def TasksInv (cm : ContextManager) : Prop := (taskIds cm).Nodup

instance (cm : ContextManager) : Decidable (TasksInv cm) := by
  unfold TasksInv; infer_instance

@[simp] lemma addHistory_pendingTasks (cm : ContextManager) (a act i o) :
    (cm.addHistory a act i o).pendingTasks = cm.pendingTasks := rfl

@[simp] lemma addHistory_completedTasks (cm : ContextManager) (a act i o) :
    (cm.addHistory a act i o).completedTasks = cm.completedTasks := rfl

@[simp] lemma updateState_pendingTasks (cm : ContextManager) (u) :
    (cm.updateState u).pendingTasks = cm.pendingTasks := rfl

@[simp] lemma updateState_completedTasks (cm : ContextManager) (u) :
    (cm.updateState u).completedTasks = cm.completedTasks := rfl

@[simp] lemma setMemory_pendingTasks (cm : ContextManager) (k v s) :
    (cm.setMemory k v s).pendingTasks = cm.pendingTasks := rfl

@[simp] lemma setMemory_completedTasks (cm : ContextManager) (k v s) :
    (cm.setMemory k v s).completedTasks = cm.completedTasks := rfl

@[simp] lemma updateTask_completedTasks (cm : ContextManager) (tid u) :
    (cm.updateTask tid u).completedTasks = cm.completedTasks := rfl

lemma performActionCtx_pendingTasks (a p b) (cm : ContextManager) :
    (performActionCtx a p b cm).pendingTasks = cm.pendingTasks := by
  unfold performActionCtx
  repeat' split
  all_goals simp

lemma performActionCtx_completedTasks (a p b) (cm : ContextManager) :
    (performActionCtx a p b cm).completedTasks = cm.completedTasks := by
  unfold performActionCtx
  repeat' split
  all_goals simp

lemma execute_ctx_pendingTasks (t parsed b) (cm : ContextManager) :
    (ExecutorAgent.execute t parsed b cm).2.1.pendingTasks = cm.pendingTasks := by
  unfold ExecutorAgent.execute
  cases hg : execGuard parsed with
  | none => simp
  | some pr =>
    rcases pr with ⟨a, p⟩
    simp [performAction, performActionCtx_pendingTasks]

lemma execute_ctx_completedTasks (t parsed b) (cm : ContextManager) :
    (ExecutorAgent.execute t parsed b cm).2.1.completedTasks = cm.completedTasks := by
  unfold ExecutorAgent.execute
  cases hg : execGuard parsed with
  | none => simp
  | some pr =>
    rcases pr with ⟨a, p⟩
    simp [performAction, performActionCtx_completedTasks]

/-- The executor's reported success is exactly `execOutcome` of its oracle
inputs, independently of the shared context. -/
lemma execute_success (t parsed b) (cm : ContextManager) :
    (ExecutorAgent.execute t parsed b cm).1.success = (execOutcome parsed b).1 := by
  unfold ExecutorAgent.execute execOutcome
  cases hg : execGuard parsed with
  | none => simp
  | some pr =>
    rcases pr with ⟨a, p⟩
    simp [performAction]

lemma execute_output (t parsed b) (cm : ContextManager) :
    (ExecutorAgent.execute t parsed b cm).1.output = (execOutcome parsed b).2 := by
  unfold ExecutorAgent.execute execOutcome
  cases hg : execGuard parsed with
  | none => simp
  | some pr =>
    rcases pr with ⟨a, p⟩
    simp [performAction]

@[simp] lemma applyTaskUpdate_id (c u t) : (applyTaskUpdate c u t).id = t.id := rfl

lemma updateFirstTask_map_id (tid : String) (f : Task → Task)
    (hf : ∀ t, (f t).id = t.id) :
    ∀ l : List Task, (updateFirstTask tid f l).map Task.id = l.map Task.id := by
  intro l
  induction l with
  | nil => rfl
  | cons t ts ih =>
    unfold updateFirstTask
    by_cases h : t.id = tid
    · simp [h, hf]
    · simp [h, ih]

@[simp] lemma taskIds_addHistory (cm : ContextManager) (a act i o) :
    taskIds (cm.addHistory a act i o) = taskIds cm := rfl

@[simp] lemma taskIds_updateState (cm : ContextManager) (u) :
    taskIds (cm.updateState u) = taskIds cm := rfl

@[simp] lemma taskIds_setMemory (cm : ContextManager) (k v s) :
    taskIds (cm.setMemory k v s) = taskIds cm := rfl

@[simp] lemma taskIds_updateTask (cm : ContextManager) (tid u) :
    taskIds (cm.updateTask tid u) = taskIds cm := by
  unfold taskIds ContextManager.updateTask
  simp [List.map_append,
    updateFirstTask_map_id tid (applyTaskUpdate cm.ctr u) (fun t => rfl)]

lemma taskIds_performActionCtx (a p b) (cm : ContextManager) :
    taskIds (performActionCtx a p b cm) = taskIds cm := by
  unfold taskIds
  rw [performActionCtx_pendingTasks, performActionCtx_completedTasks]

lemma taskIds_execute (t parsed b) (cm : ContextManager) :
    taskIds (ExecutorAgent.execute t parsed b cm).2.1 = taskIds cm := by
  unfold taskIds
  rw [execute_ctx_pendingTasks, execute_ctx_completedTasks]

lemma taskIds_reviewTaskResult (t r parsed) (cm : ContextManager) :
    taskIds (ReviewerAgent.reviewTaskResult t r parsed cm).2 = taskIds cm := by
  unfold ReviewerAgent.reviewTaskResult
  simp

lemma extractFirst_perm (tid : String) :
    ∀ l u rest, extractFirst tid l = some (u, rest) → l.Perm (u :: rest) := by
  intro l
  induction l with
  | nil => intro u rest h; simp [extractFirst] at h
  | cons t ts ih =>
    intro u rest h
    unfold extractFirst at h
    by_cases ht : t.id = tid
    · rw [if_pos ht] at h
      cases h
      exact List.Perm.refl _
    · rw [if_neg ht] at h
      cases he : extractFirst tid ts with
      | none => rw [he] at h; cases h
      | some pr =>
        rcases pr with ⟨v, rest2⟩
        rw [he] at h
        simp only [Option.some.injEq, Prod.mk.injEq] at h
        obtain ⟨rfl, rfl⟩ := h
        exact ((ih v rest2 he).cons t).trans (List.Perm.swap v t rest2)

lemma extractFirst_id (tid : String) :
    ∀ l u rest, extractFirst tid l = some (u, rest) → u.id = tid := by
  intro l
  induction l with
  | nil => intro u rest h; simp [extractFirst] at h
  | cons t ts ih =>
    intro u rest h
    unfold extractFirst at h
    by_cases ht : t.id = tid
    · rw [if_pos ht] at h; cases h; exact ht
    · rw [if_neg ht] at h
      cases he : extractFirst tid ts with
      | none => rw [he] at h; cases h
      | some pr =>
        rcases pr with ⟨v, rest2⟩
        rw [he] at h
        simp only [Option.some.injEq, Prod.mk.injEq] at h
        obtain ⟨rfl, rfl⟩ := h
        exact ih v rest2 he

lemma extractFirst_mem_rest (tid : String) {t : Task} :
    ∀ l u rest, t ∈ l → t.id ≠ tid → extractFirst tid l = some (u, rest) →
      t ∈ rest := by
  intro l
  induction l with
  | nil => intro u rest hm; simp at hm
  | cons hd ts ih =>
    intro u rest hm hne h
    unfold extractFirst at h
    by_cases hh : hd.id = tid
    · rw [if_pos hh] at h
      cases h
      rcases List.mem_cons.mp hm with rfl | hts
      · exact absurd hh hne
      · exact hts
    · rw [if_neg hh] at h
      cases he : extractFirst tid ts with
      | none => rw [he] at h; cases h
      | some pr =>
        rcases pr with ⟨v, rest2⟩
        rw [he] at h
        simp only [Option.some.injEq, Prod.mk.injEq] at h
        obtain ⟨rfl, rfl⟩ := h
        rcases List.mem_cons.mp hm with rfl | hts
        · exact List.mem_cons_self _ _
        · exact List.mem_cons_of_mem _ (ih v rest2 hts hne he)

lemma taskIds_completeTask_perm (cm : ContextManager) (tid r) :
    (taskIds (cm.completeTask tid r)).Perm (taskIds cm) := by
  unfold ContextManager.completeTask
  cases he : extractFirst tid cm.pendingTasks with
  | none => exact List.Perm.refl _
  | some pr =>
    rcases pr with ⟨u, rest⟩
    have hperm := extractFirst_perm tid cm.pendingTasks u rest he
    have h1 : (cm.pendingTasks.map Task.id).Perm (u.id :: rest.map Task.id) := by
      simpa using hperm.map Task.id
    unfold taskIds
    simp only [List.map_append, List.map_cons, List.map_nil, List.append_assoc,
      List.singleton_append]
    exact (h1.symm).append_left _

lemma tasksInv_completeTask {cm : ContextManager} (h : TasksInv cm) (tid r) :
    TasksInv (cm.completeTask tid r) :=
  ((taskIds_completeTask_perm cm tid r).nodup_iff).mpr h

attribute [simp] taskIds_performActionCtx taskIds_execute taskIds_reviewTaskResult

lemma tasksInv_completePhase {cm : ContextManager} (h : TasksInv cm)
    (cfg orc rc task er msgs) :
    TasksInv (completePhase cfg orc rc task er cm msgs).1.cm := by
  unfold completePhase
  by_cases hs : er.success
  · simp only [hs, if_pos]
    exact tasksInv_completeTask h _ _
  · simp only [Bool.not_eq_true] at hs
    simp only [hs, Bool.false_eq_true, if_neg, if_false]
    unfold TasksInv
    rw [taskIds_updateTask]
    exact h

lemma tasksInv_iterationStep {st : OrchState} (h : TasksInv st.cm)
    (cfg orc rc task) :
    TasksInv (iterationStep cfg orc rc task st).1.cm := by
  have hbase : TasksInv (ReviewerAgent.reviewTaskResult task
      (ExecutorAgent.execute task orc.execParse orc.browser
        (st.cm.updateTask task.id { status := some .in_progress })).1.output
      orc.reviewParse
      (ExecutorAgent.execute task orc.execParse orc.browser
        (st.cm.updateTask task.id { status := some .in_progress })).2.1).2 := by
    unfold TasksInv
    simp only [taskIds_reviewTaskResult, taskIds_execute, taskIds_updateTask]
    exact h
  have hexec : TasksInv (ExecutorAgent.execute task orc.execParse orc.browser
      (st.cm.updateTask task.id { status := some .in_progress })).2.1 := by
    unfold TasksInv
    simp only [taskIds_execute, taskIds_updateTask]
    exact h
  unfold iterationStep
  dsimp only
  split
  · split
    · unfold TasksInv
      rw [taskIds_updateTask]
      exact hbase
    · exact tasksInv_completePhase hbase _ _ _ _ _ _
  · exact tasksInv_completePhase hexec _ _ _ _ _ _

lemma tasksInv_runLoop (cfg : WorkflowConfig) (o : Nat → IterOracle) :
    ∀ fuel it rc st, TasksInv st.cm →
      TasksInv (runLoop cfg o fuel it rc st).cm := by
  intro fuel
  induction fuel with
  | zero => intro it rc st h; simpa [runLoop] using h
  | succ f ih =>
    intro it rc st h
    rw [runLoop]
    cases hn : st.cm.getNextTask with
    | none => simpa using h
    | some task =>
      dsimp only
      split
      · exact tasksInv_iterationStep h _ _ _ _
      · exact ih _ _ _ (tasksInv_iterationStep h _ _ _ _)

/-! ## Counting executor invocations via the audit history -/

/-- The number of `execute_start` history entries: each `ExecutorAgent.execute`
invocation records exactly one, so this counts how often tasks were executed. -/
def execStarts (cm : ContextManager) : Nat :=
  cm.history.countP (fun h => h.action == "execute_start")

lemma execStarts_addHistory (cm : ContextManager) (a act i o) :
    execStarts (cm.addHistory a act i o) =
      execStarts cm + (if act == "execute_start" then 1 else 0) := by
  unfold execStarts ContextManager.addHistory
  simp [List.countP_append, List.countP_cons]

@[simp] lemma execStarts_addHistory_start (cm : ContextManager) (a i o) :
    execStarts (cm.addHistory a "execute_start" i o) = execStarts cm + 1 := by
  rw [execStarts_addHistory]; rfl

@[simp] lemma execStarts_updateState (cm : ContextManager) (u) :
    execStarts (cm.updateState u) = execStarts cm := by
  unfold ContextManager.updateState
  rw [execStarts_addHistory]
  rfl

@[simp] lemma execStarts_setMemory (cm : ContextManager) (k v s) :
    execStarts (cm.setMemory k v s) = execStarts cm := rfl

@[simp] lemma execStarts_updateTask (cm : ContextManager) (tid u) :
    execStarts (cm.updateTask tid u) = execStarts cm := rfl

@[simp] lemma execStarts_completeTask (cm : ContextManager) (tid r) :
    execStarts (cm.completeTask tid r) = execStarts cm := by
  unfold ContextManager.completeTask
  cases he : extractFirst tid cm.pendingTasks with
  | none => rfl
  | some pr => rfl

@[simp] lemma execStarts_performActionCtx (a p b) (cm : ContextManager) :
    execStarts (performActionCtx a p b cm) = execStarts cm := by
  unfold performActionCtx
  repeat' split
  all_goals simp

@[simp] lemma execStarts_execute (t parsed b) (cm : ContextManager) :
    execStarts (ExecutorAgent.execute t parsed b cm).2.1 = execStarts cm + 1 := by
  unfold ExecutorAgent.execute
  cases hg : execGuard parsed with
  | none => simp
  | some pr =>
    rcases pr with ⟨a, p⟩
    simp [performAction, execStarts_addHistory]

@[simp] lemma execStarts_reviewTaskResult (t r parsed) (cm : ContextManager) :
    execStarts (ReviewerAgent.reviewTaskResult t r parsed cm).2 = execStarts cm := by
  unfold ReviewerAgent.reviewTaskResult
  dsimp only
  rw [execStarts_updateTask, execStarts_addHistory, execStarts_addHistory]
  rfl

/-! ## Shape of the planning phase -/

@[simp] lemma mkPlanTask_id (c i t) : (mkPlanTask c i t).id = "task-" ++ Nat.repr i := rfl

@[simp] lemma mkPlanTask_status (c i t) : (mkPlanTask c i t).status = .pending := rfl

@[simp] lemma mkReviseTask_id (c i t) :
    (mkReviseTask c i t).id = "task-r-" ++ Nat.repr i := rfl

@[simp] lemma mkReviseTask_status (c i t) : (mkReviseTask c i t).status = .pending := rfl

lemma map_id_mapWithIndex (f : Nat → ParsedTask → Task) (g : Nat → String)
    (hf : ∀ i t, (f i t).id = g i) :
    ∀ (ts : List ParsedTask) (k : Nat),
      (mapWithIndex f k ts).map Task.id = (List.range' k ts.length).map g := by
  intro ts
  induction ts with
  | nil => intro k; rfl
  | cons t ts ih =>
    intro k
    simp only [mapWithIndex, List.map_cons, List.length_cons, List.range'_succ, hf, ih]

lemma mem_mapWithIndex (f : Nat → ParsedTask → Task) :
    ∀ (ts : List ParsedTask) (k : Nat) (u : Task),
      u ∈ mapWithIndex f k ts → ∃ i t, u = f i t := by
  intro ts
  induction ts with
  | nil => intro k u h; simp [mapWithIndex] at h
  | cons t ts ih =>
    intro k u h
    rcases List.mem_cons.mp h with rfl | h2
    · exact ⟨k, t, rfl⟩
    · exact ih (k + 1) u h2

lemma nodup_mapWithIndex_ids (f : Nat → ParsedTask → Task) (pre : String)
    (hf : ∀ i t, (f i t).id = pre ++ Nat.repr i) (ts : List ParsedTask) (k : Nat) :
    ((mapWithIndex f k ts).map Task.id).Nodup := by
  rw [map_id_mapWithIndex f (fun i => pre ++ Nat.repr i) hf ts k]
  exact List.Nodup.map (fun i j h => prefixed_repr_inj pre h) (List.nodup_range' k ts.length)

lemma mapWithIndex_status_pending (f : Nat → ParsedTask → Task)
    (hf : ∀ i t, (f i t).status = .pending) (ts : List ParsedTask) (k : Nat) :
    ∀ u ∈ mapWithIndex f k ts, u.status = .pending := by
  intro u hu
  obtain ⟨i, t, rfl⟩ := mem_mapWithIndex f ts k u hu
  exact hf i t

lemma createPlan_pendingTasks (goal p) (cm : ContextManager) :
    (PlannerAgent.createPlan goal p cm).2.pendingTasks =
      mapWithIndex (mkPlanTask (cm.ctr + 1)) 0 (planParsedTasks p) := rfl

lemma createPlan_completedTasks (goal p) (cm : ContextManager) :
    (PlannerAgent.createPlan goal p cm).2.completedTasks = cm.completedTasks := rfl

lemma createPlan_plan_tasks (goal p) (cm : ContextManager) :
    (PlannerAgent.createPlan goal p cm).1.tasks =
      mapWithIndex (mkPlanTask (cm.ctr + 1)) 0 (planParsedTasks p) := rfl

lemma createPlan_currentPlan (goal p) (cm : ContextManager) :
    (PlannerAgent.createPlan goal p cm).2.currentPlan =
      some (PlannerAgent.createPlan goal p cm).1 := rfl

lemma revisePlan_pendingTasks (f p) (cm : ContextManager) :
    (PlannerAgent.revisePlan f p cm).2.pendingTasks =
      ((cm.currentPlan.map (·.tasks)).getD []).filter
        (fun t => t.status == .completed) ++
        mapWithIndex (mkReviseTask cm.ctr) 0 (planParsedTasks p) := rfl

lemma revisePlan_completedTasks (f p) (cm : ContextManager) :
    (PlannerAgent.revisePlan f p cm).2.completedTasks = cm.completedTasks := rfl

lemma revisePlan_plan_tasks (f p) (cm : ContextManager) :
    (PlannerAgent.revisePlan f p cm).1.tasks =
      ((cm.currentPlan.map (·.tasks)).getD []).filter
        (fun t => t.status == .completed) ++
        mapWithIndex (mkReviseTask cm.ctr) 0 (planParsedTasks p) := rfl

/-- After the planning phase the completed collection is empty and all task
ids are distinct. -/
lemma planningPhase_completedTasks (goal cfg o) :
    (planningPhase goal cfg o).completedTasks = [] := by
  unfold planningPhase
  dsimp only
  split
  · split
    · rw [revisePlan_completedTasks, createPlan_completedTasks]; rfl
    · rw [createPlan_completedTasks]; rfl
  · rw [createPlan_completedTasks]; rfl

lemma planningPhase_tasksInv (goal cfg o) : TasksInv (planningPhase goal cfg o) := by
  have hcreate : ∀ p : Option ParsedPlan, ∀ c : Nat,
      ((mapWithIndex (mkPlanTask c) 0 (planParsedTasks p)).map Task.id).Nodup :=
    fun p c => nodup_mapWithIndex_ids _ "task-" (fun i t => rfl) _ 0
  unfold planningPhase
  dsimp only
  unfold TasksInv taskIds
  split
  · split
    · rw [revisePlan_completedTasks, createPlan_completedTasks]
      rw [revisePlan_pendingTasks]
      have hcp := createPlan_currentPlan goal o.planParse (ContextManager.init goal)
      rw [hcp]
      simp only [Option.map_some', Option.getD_some, createPlan_plan_tasks]
      have hfilter : (mapWithIndex (mkPlanTask ((ContextManager.init goal).ctr + 1)) 0
          (planParsedTasks o.planParse)).filter (fun t => t.status == .completed) = [] := by
        rw [List.filter_eq_nil_iff]
        intro a ha
        have := mapWithIndex_status_pending _ (fun i t => rfl) _ 0 a ha
        simp [this]
      rw [hfilter]
      show ((([] : List Task) ++ _).map Task.id).Nodup
      simp only [List.nil_append]
      exact nodup_mapWithIndex_ids _ "task-r-" (fun i t => rfl) _ 0
    · rw [createPlan_completedTasks, createPlan_pendingTasks]
      show ((([] : List Task) ++ _).map Task.id).Nodup
      simp only [List.nil_append]
      exact hcreate _ _
  · rw [createPlan_completedTasks, createPlan_pendingTasks]
    show ((([] : List Task) ++ _).map Task.id).Nodup
    simp only [List.nil_append]
    exact hcreate _ _

/-! ## Select/step lemmas for the orchestrator loop -/

lemma getNextTask_status {cm : ContextManager} {t : Task}
    (h : cm.getNextTask = some t) :
    t.status = .pending ∨ t.status = .approved := by
  have hp := List.find?_some h
  rcases Bool.or_eq_true_iff.mp hp with h1 | h1
  · exact Or.inl (by simpa using h1)
  · exact Or.inr (by simpa using h1)

lemma getNextTask_mem {cm : ContextManager} {t : Task}
    (h : cm.getNextTask = some t) : t ∈ cm.pendingTasks :=
  List.mem_of_find?_eq_some h

lemma getNextTask_of_nil {cm : ContextManager} (h : cm.pendingTasks = []) :
    cm.getNextTask = none := by
  unfold ContextManager.getNextTask
  rw [h]
  rfl

lemma getNextTask_singleton {cm : ContextManager} {t : Task}
    (hp : cm.pendingTasks = [t])
    (hs : t.status = .pending ∨ t.status = .approved) :
    cm.getNextTask = some t := by
  unfold ContextManager.getNextTask
  rw [hp]
  rcases hs with h | h <;> simp [List.find?, h]

lemma getNextTask_singleton_failed {cm : ContextManager} {t : Task}
    (hp : cm.pendingTasks = [t]) (hs : t.status = .failed) :
    cm.getNextTask = none := by
  unfold ContextManager.getNextTask
  rw [hp]
  simp only [List.find?, hs]
  rfl

lemma runLoop_noTask (cfg o) : ∀ fuel it rc (st : OrchState),
    st.cm.getNextTask = none → runLoop cfg o fuel it rc st = st := by
  intro fuel it rc st h
  cases fuel with
  | zero => rfl
  | succ f => rw [runLoop, h]

@[simp] lemma updateFirstTask_singleton {t : Task} {tid : String}
    (h : t.id = tid) (f : Task → Task) :
    updateFirstTask tid f [t] = [f t] := by
  simp [updateFirstTask, h]

@[simp] lemma extractFirst_singleton {t : Task} {tid : String} (h : t.id = tid) :
    extractFirst tid [t] = some (t, []) := by
  simp [extractFirst, h]

@[simp] lemma updateTask_pendingTasks (cm : ContextManager) (tid u) :
    (cm.updateTask tid u).pendingTasks =
      updateFirstTask tid (applyTaskUpdate cm.ctr u) cm.pendingTasks := rfl

lemma reviewTaskResult_approved (t r parsed) (cm : ContextManager) :
    (ReviewerAgent.reviewTaskResult t r parsed cm).1.approved =
      reviewApprovedFlag parsed := rfl

lemma reviewPlan_approved (plan parsed c) :
    (ReviewerAgent.reviewPlan plan parsed c).approved =
      reviewApprovedFlag parsed := rfl

/-- `reviewTaskResult` rewrites the singleton pending task to the reviewer's
verdict status, keeping its id. -/
lemma reviewTaskResult_pending_singleton (task : Task) {cm : ContextManager}
    {t1 : Task} (hp : cm.pendingTasks = [t1]) (hid : t1.id = task.id) (r parsed) :
    ∃ t2, (ReviewerAgent.reviewTaskResult task r parsed cm).2.pendingTasks = [t2] ∧
      t2.id = task.id ∧
      t2.status = (if reviewApprovedFlag parsed then .approved else .rejected) := by
  unfold ReviewerAgent.reviewTaskResult
  dsimp only
  rw [updateTask_pendingTasks]
  simp only [addHistory_pendingTasks, hp]
  rw [updateFirstTask_singleton hid]
  refine ⟨_, rfl, ?_, ?_⟩
  · simp [applyTaskUpdate, hid]
  · simp [applyTaskUpdate]

lemma completeTask_singleton (task : Task) {cm : ContextManager} {t1 : Task}
    (hp : cm.pendingTasks = [t1]) (hid : t1.id = task.id) (r) :
    (cm.completeTask task.id r).pendingTasks = [] ∧
    ∃ t2, (cm.completeTask task.id r).completedTasks = cm.completedTasks ++ [t2] ∧
      t2.id = task.id ∧ t2.status = .completed := by
  unfold ContextManager.completeTask
  rw [hp, extractFirst_singleton hid]
  exact ⟨rfl, _, rfl, hid, rfl⟩

/-- The in-progress marking at the start of an iteration on a singleton
pending collection. -/
lemma inProgress_singleton {st : OrchState} {task : Task}
    (hp : st.cm.pendingTasks = [task]) :
    (st.cm.updateTask task.id { status := some .in_progress }).pendingTasks =
      [applyTaskUpdate st.cm.ctr { status := some .in_progress } task] := by
  rw [updateTask_pendingTasks, hp, updateFirstTask_singleton rfl]

/-- Retry branch of one iteration: review required, execution succeeded,
review rejected, retry budget available.  The task is reset to `pending`, the
counter is incremented, the timeout check is skipped. -/
lemma iterationStep_retry {cfg : WorkflowConfig} {orc : IterOracle} {rc : Nat}
    {task : Task} {st : OrchState}
    (hreq : cfg.requireReview = true)
    (hsuc : (execOutcome orc.execParse orc.browser).1 = true)
    (hrej : reviewApprovedFlag orc.reviewParse = false)
    (hauto : cfg.autoRetry = true)
    (hrc : rc < cfg.retryLimit)
    (hp : st.cm.pendingTasks = [task]) :
    (iterationStep cfg orc rc task st).2.2 = false ∧
    (iterationStep cfg orc rc task st).2.1 = rc + 1 ∧
    (∃ t2, (iterationStep cfg orc rc task st).1.cm.pendingTasks = [t2] ∧
      t2.id = task.id ∧ t2.status = .pending) ∧
    (iterationStep cfg orc rc task st).1.cm.completedTasks = st.cm.completedTasks ∧
    execStarts (iterationStep cfg orc rc task st).1.cm = execStarts st.cm + 1 := by
  have hp1 := inProgress_singleton hp
  have hp2 : (ExecutorAgent.execute task orc.execParse orc.browser
      (st.cm.updateTask task.id { status := some .in_progress })).2.1.pendingTasks =
      [applyTaskUpdate st.cm.ctr { status := some .in_progress } task] := by
    rw [execute_ctx_pendingTasks, hp1]
  obtain ⟨t2, ht2, hid2, _⟩ :=
    reviewTaskResult_pending_singleton task hp2 rfl
      (ExecutorAgent.execute task orc.execParse orc.browser
        (st.cm.updateTask task.id { status := some .in_progress })).1.output
      orc.reviewParse
  unfold iterationStep
  dsimp only
  rw [execute_success, hsuc, hreq]
  simp only [Bool.and_self, if_true]
  rw [reviewTaskResult_approved, hrej, hauto]
  simp only [Bool.not_false, Bool.true_and, decide_eq_true hrc, Bool.and_self, if_true]
  refine ⟨trivial, trivial, ?_, ?_, ?_⟩
  · rw [updateTask_pendingTasks, ht2, updateFirstTask_singleton hid2]
    refine ⟨_, rfl, ?_, ?_⟩
    · exact hid2
    · simp [applyTaskUpdate]
  · rw [updateTask_completedTasks]
    have h1 : (ReviewerAgent.reviewTaskResult task
        (ExecutorAgent.execute task orc.execParse orc.browser
          (st.cm.updateTask task.id { status := some .in_progress })).1.output
        orc.reviewParse
        (ExecutorAgent.execute task orc.execParse orc.browser
          (st.cm.updateTask task.id { status := some .in_progress })).2.1).2.completedTasks =
        st.cm.completedTasks := by
      unfold ReviewerAgent.reviewTaskResult
      dsimp only
      rw [updateTask_completedTasks]
      simp only [addHistory_completedTasks]
      rw [execute_ctx_completedTasks, updateTask_completedTasks]
    exact h1
  · rw [execStarts_updateTask, execStarts_reviewTaskResult, execStarts_execute,
      execStarts_updateTask]

/-- `completePhase` on a successful execution and a singleton pending
collection: the task is moved to `completedTasks` with status `completed`. -/
lemma completePhase_success (task : Task) (er : ExecutionResult)
    {cm : ContextManager} {t1 : Task}
    (hp : cm.pendingTasks = [t1]) (hid : t1.id = task.id)
    (cfg orc rc msgs) (hs : er.success = true) :
    (completePhase cfg orc rc task er cm msgs).1.cm.pendingTasks = [] ∧
    (∃ t2, (completePhase cfg orc rc task er cm msgs).1.cm.completedTasks =
        cm.completedTasks ++ [t2] ∧ t2.id = task.id ∧ t2.status = .completed) ∧
    execStarts (completePhase cfg orc rc task er cm msgs).1.cm = execStarts cm ∧
    (completePhase cfg orc rc task er cm msgs).2.1 = rc ∧
    (completePhase cfg orc rc task er cm msgs).2.2 =
      decide (cfg.timeout < orc.elapsed) := by
  obtain ⟨h1, t2, h2, h3, h4⟩ := completeTask_singleton task hp hid
    (some { success := true, data := er.output, error := none, reviewNotes := none })
  unfold completePhase
  simp only [hs, if_true]
  exact ⟨h1, ⟨t2, h2, h3, h4⟩, execStarts_completeTask _ _ _, trivial, trivial⟩

/-- `completePhase` on a failed execution and a singleton pending collection:
the task is marked `failed` and stays pending. -/
lemma completePhase_failure (task : Task) (er : ExecutionResult)
    {cm : ContextManager} {t1 : Task}
    (hp : cm.pendingTasks = [t1]) (hid : t1.id = task.id)
    (cfg orc rc msgs) (hs : er.success = false) :
    (∃ t2, (completePhase cfg orc rc task er cm msgs).1.cm.pendingTasks = [t2] ∧
      t2.id = task.id ∧ t2.status = .failed) ∧
    (completePhase cfg orc rc task er cm msgs).1.cm.completedTasks =
      cm.completedTasks ∧
    execStarts (completePhase cfg orc rc task er cm msgs).1.cm = execStarts cm ∧
    (completePhase cfg orc rc task er cm msgs).2.1 = rc ∧
    (completePhase cfg orc rc task er cm msgs).2.2 =
      decide (cfg.timeout < orc.elapsed) := by
  unfold completePhase
  simp only [hs, Bool.false_eq_true, if_false]
  refine ⟨?_, rfl, rfl, trivial, trivial⟩
  rw [updateTask_pendingTasks, hp, updateFirstTask_singleton hid]
  refine ⟨_, rfl, ?_, ?_⟩
  · exact hid
  · simp [applyTaskUpdate]

/-- Failed-execution iteration on a singleton pending collection. -/
lemma iterationStep_execFail {cfg : WorkflowConfig} {orc : IterOracle} {rc : Nat}
    {task : Task} {st : OrchState}
    (hsuc : (execOutcome orc.execParse orc.browser).1 = false)
    (hp : st.cm.pendingTasks = [task]) :
    (∃ t2, (iterationStep cfg orc rc task st).1.cm.pendingTasks = [t2] ∧
      t2.id = task.id ∧ t2.status = .failed) ∧
    (iterationStep cfg orc rc task st).1.cm.completedTasks = st.cm.completedTasks ∧
    execStarts (iterationStep cfg orc rc task st).1.cm = execStarts st.cm + 1 ∧
    (iterationStep cfg orc rc task st).2.1 = rc ∧
    (iterationStep cfg orc rc task st).2.2 = decide (cfg.timeout < orc.elapsed) := by
  have hp2 : (ExecutorAgent.execute task orc.execParse orc.browser
      (st.cm.updateTask task.id { status := some .in_progress })).2.1.pendingTasks =
      [applyTaskUpdate st.cm.ctr { status := some .in_progress } task] := by
    rw [execute_ctx_pendingTasks, inProgress_singleton hp]
  have hc := completePhase_failure task
    (ExecutorAgent.execute task orc.execParse orc.browser
      (st.cm.updateTask task.id { status := some .in_progress })).1
    hp2 rfl cfg orc rc st.messages
    (by rw [execute_success]; exact hsuc)
  unfold iterationStep
  dsimp only
  rw [execute_success, hsuc]
  simp only [Bool.and_false, Bool.false_eq_true, if_false]
  obtain ⟨h1, h2, h3, h4, h5⟩ := hc
  refine ⟨h1, ?_, ?_, h4, h5⟩
  · rw [h2, execute_ctx_completedTasks, updateTask_completedTasks]
  · rw [h3, execStarts_execute, execStarts_updateTask]

/-- Successful iteration without review gating: the task completes. -/
lemma iterationStep_noReview {cfg : WorkflowConfig} {orc : IterOracle} {rc : Nat}
    {task : Task} {st : OrchState}
    (hreq : cfg.requireReview = false)
    (hsuc : (execOutcome orc.execParse orc.browser).1 = true)
    (hp : st.cm.pendingTasks = [task]) :
    (iterationStep cfg orc rc task st).1.cm.pendingTasks = [] ∧
    (∃ t2, (iterationStep cfg orc rc task st).1.cm.completedTasks =
        st.cm.completedTasks ++ [t2] ∧ t2.id = task.id ∧ t2.status = .completed) ∧
    execStarts (iterationStep cfg orc rc task st).1.cm = execStarts st.cm + 1 ∧
    (iterationStep cfg orc rc task st).2.1 = rc ∧
    (iterationStep cfg orc rc task st).2.2 = decide (cfg.timeout < orc.elapsed) := by
  have hp2 : (ExecutorAgent.execute task orc.execParse orc.browser
      (st.cm.updateTask task.id { status := some .in_progress })).2.1.pendingTasks =
      [applyTaskUpdate st.cm.ctr { status := some .in_progress } task] := by
    rw [execute_ctx_pendingTasks, inProgress_singleton hp]
  have hc := completePhase_success task
    (ExecutorAgent.execute task orc.execParse orc.browser
      (st.cm.updateTask task.id { status := some .in_progress })).1
    hp2 rfl cfg orc rc st.messages
    (by rw [execute_success]; exact hsuc)
  unfold iterationStep
  dsimp only
  rw [hreq]
  simp only [Bool.false_and, Bool.false_eq_true, if_false]
  obtain ⟨h1, h2, h3, h4, h5⟩ := hc
  refine ⟨h1, ?_, ?_, h4, h5⟩
  · obtain ⟨t2, h2a, h2b, h2c⟩ := h2
    refine ⟨t2, ?_, h2b, h2c⟩
    rw [h2a, execute_ctx_completedTasks, updateTask_completedTasks]
  · rw [h3, execStarts_execute, execStarts_updateTask]

/-- Successful iteration, review required and rejected, retry budget
exhausted (or auto-retry disabled): the rejected-but-successful task is
nevertheless completed, and the retry counter is NOT reset. -/
lemma iterationStep_rejectExhausted {cfg : WorkflowConfig} {orc : IterOracle}
    {rc : Nat} {task : Task} {st : OrchState}
    (hreq : cfg.requireReview = true)
    (hsuc : (execOutcome orc.execParse orc.browser).1 = true)
    (hrej : reviewApprovedFlag orc.reviewParse = false)
    (hnoretry : cfg.autoRetry = false ∨ cfg.retryLimit ≤ rc)
    (hp : st.cm.pendingTasks = [task]) :
    (iterationStep cfg orc rc task st).1.cm.pendingTasks = [] ∧
    (∃ t2, (iterationStep cfg orc rc task st).1.cm.completedTasks =
        st.cm.completedTasks ++ [t2] ∧ t2.id = task.id ∧ t2.status = .completed) ∧
    execStarts (iterationStep cfg orc rc task st).1.cm = execStarts st.cm + 1 ∧
    (iterationStep cfg orc rc task st).2.1 = rc ∧
    (iterationStep cfg orc rc task st).2.2 = decide (cfg.timeout < orc.elapsed) := by
  have hp2 : (ExecutorAgent.execute task orc.execParse orc.browser
      (st.cm.updateTask task.id { status := some .in_progress })).2.1.pendingTasks =
      [applyTaskUpdate st.cm.ctr { status := some .in_progress } task] := by
    rw [execute_ctx_pendingTasks, inProgress_singleton hp]
  obtain ⟨t2, ht2, hid2, _⟩ :=
    reviewTaskResult_pending_singleton task hp2 rfl
      (ExecutorAgent.execute task orc.execParse orc.browser
        (st.cm.updateTask task.id { status := some .in_progress })).1.output
      orc.reviewParse
  have hcond : (cfg.autoRetry && decide (rc < cfg.retryLimit)) = false := by
    rcases hnoretry with h | h
    · simp [h]
    · simp [Nat.not_lt.mpr h]
  have hc := completePhase_success task
    (ExecutorAgent.execute task orc.execParse orc.browser
      (st.cm.updateTask task.id { status := some .in_progress })).1
    ht2 hid2 cfg orc rc st.messages
    (by rw [execute_success]; exact hsuc)
  unfold iterationStep
  dsimp only
  rw [execute_success, hsuc, hreq]
  simp only [Bool.and_self, if_true]
  rw [reviewTaskResult_approved, hrej]
  simp only [Bool.not_false, Bool.true_and, hcond, Bool.and_false,
    Bool.false_eq_true, if_false]
  obtain ⟨h1, h2, h3, h4, h5⟩ := hc
  refine ⟨h1, ?_, ?_, h4, h5⟩
  · obtain ⟨t3, h2a, h2b, h2c⟩ := h2
    refine ⟨t3, ?_, h2b, h2c⟩
    rw [h2a]
    have hcc : (ReviewerAgent.reviewTaskResult task
        (ExecutorAgent.execute task orc.execParse orc.browser
          (st.cm.updateTask task.id { status := some .in_progress })).1.output
        orc.reviewParse
        (ExecutorAgent.execute task orc.execParse orc.browser
          (st.cm.updateTask task.id { status := some .in_progress })).2.1).2.completedTasks =
        st.cm.completedTasks := by
      unfold ReviewerAgent.reviewTaskResult
      dsimp only
      rw [updateTask_completedTasks]
      simp only [addHistory_completedTasks]
      rw [execute_ctx_completedTasks, updateTask_completedTasks]
    rw [hcc]
  · rw [h3, execStarts_reviewTaskResult, execStarts_execute, execStarts_updateTask]

/-- Successful iteration, review required and approved: the task completes
and the retry counter is reset to zero. -/
lemma iterationStep_approved {cfg : WorkflowConfig} {orc : IterOracle}
    {rc : Nat} {task : Task} {st : OrchState}
    (hreq : cfg.requireReview = true)
    (hsuc : (execOutcome orc.execParse orc.browser).1 = true)
    (happ : reviewApprovedFlag orc.reviewParse = true)
    (hp : st.cm.pendingTasks = [task]) :
    (iterationStep cfg orc rc task st).1.cm.pendingTasks = [] ∧
    (∃ t2, (iterationStep cfg orc rc task st).1.cm.completedTasks =
        st.cm.completedTasks ++ [t2] ∧ t2.id = task.id ∧ t2.status = .completed) ∧
    execStarts (iterationStep cfg orc rc task st).1.cm = execStarts st.cm + 1 ∧
    (iterationStep cfg orc rc task st).2.1 = 0 ∧
    (iterationStep cfg orc rc task st).2.2 = decide (cfg.timeout < orc.elapsed) := by
  have hp2 : (ExecutorAgent.execute task orc.execParse orc.browser
      (st.cm.updateTask task.id { status := some .in_progress })).2.1.pendingTasks =
      [applyTaskUpdate st.cm.ctr { status := some .in_progress } task] := by
    rw [execute_ctx_pendingTasks, inProgress_singleton hp]
  obtain ⟨t2, ht2, hid2, _⟩ :=
    reviewTaskResult_pending_singleton task hp2 rfl
      (ExecutorAgent.execute task orc.execParse orc.browser
        (st.cm.updateTask task.id { status := some .in_progress })).1.output
      orc.reviewParse
  have hc := completePhase_success task
    (ExecutorAgent.execute task orc.execParse orc.browser
      (st.cm.updateTask task.id { status := some .in_progress })).1
    ht2 hid2 cfg orc 0 st.messages
    (by rw [execute_success]; exact hsuc)
  unfold iterationStep
  dsimp only
  rw [execute_success, hsuc, hreq]
  simp only [Bool.and_self, if_true]
  rw [reviewTaskResult_approved, happ]
  simp only [Bool.not_true, Bool.false_and, Bool.false_eq_true, if_false, if_true]
  obtain ⟨h1, h2, h3, h4, h5⟩ := hc
  refine ⟨h1, ?_, ?_, h4, h5⟩
  · obtain ⟨t3, h2a, h2b, h2c⟩ := h2
    refine ⟨t3, ?_, h2b, h2c⟩
    rw [h2a]
    have hcc : (ReviewerAgent.reviewTaskResult task
        (ExecutorAgent.execute task orc.execParse orc.browser
          (st.cm.updateTask task.id { status := some .in_progress })).1.output
        orc.reviewParse
        (ExecutorAgent.execute task orc.execParse orc.browser
          (st.cm.updateTask task.id { status := some .in_progress })).2.1).2.completedTasks =
        st.cm.completedTasks := by
      unfold ReviewerAgent.reviewTaskResult
      dsimp only
      rw [updateTask_completedTasks]
      simp only [addHistory_completedTasks]
      rw [execute_ctx_completedTasks, updateTask_completedTasks]
    rw [hcc]
  · rw [h3, execStarts_reviewTaskResult, execStarts_execute, execStarts_updateTask]

/-- Exact behaviour of the loop on a single selectable task whose execution
always succeeds and whose review always rejects: with retry budget `N - rc`
left, the loop executes the task `N - rc + 1` times and then completes it
(moves it to `completedTasks` with status `completed`), leaving no pending
task. -/
lemma singleTask_reject_runLoop (cfg : WorkflowConfig) (o : Nat → IterOracle)
    (hreq : cfg.requireReview = true) (hauto : cfg.autoRetry = true)
    (hsuc : ∀ i, (execOutcome (o i).execParse (o i).browser).1 = true)
    (hrej : ∀ i, reviewApprovedFlag (o i).reviewParse = false)
    (htime : ∀ i, (o i).elapsed ≤ cfg.timeout) :
    ∀ fuel it rc (st : OrchState) (task : Task),
      st.cm.pendingTasks = [task] →
      (task.status = .pending ∨ task.status = .approved) →
      rc ≤ cfg.retryLimit → cfg.retryLimit - rc < fuel →
      (runLoop cfg o fuel it rc st).cm.pendingTasks = [] ∧
      (∃ t2, (runLoop cfg o fuel it rc st).cm.completedTasks =
          st.cm.completedTasks ++ [t2] ∧ t2.id = task.id ∧ t2.status = .completed) ∧
      execStarts (runLoop cfg o fuel it rc st).cm =
        execStarts st.cm + (cfg.retryLimit - rc) + 1 := by
  intro fuel
  induction fuel with
  | zero => intro it rc st task _ _ _ hf; omega
  | succ f ih =>
    intro it rc st task hp hstat hrc hf
    have hget := getNextTask_singleton hp hstat
    rw [runLoop, hget]
    dsimp only
    by_cases hlt : rc < cfg.retryLimit
    · obtain ⟨hstop, hrc', ⟨t2, hp', hid', hst'⟩, hcomp, hcount⟩ :=
        iterationStep_retry hreq (hsuc it) (hrej it) hauto hlt hp
      rw [hstop]
      simp only [Bool.false_eq_true, if_false]
      rw [hrc']
      obtain ⟨ih1, ⟨t3, ih2, ih3, ih4⟩, ih5⟩ :=
        ih (it + 1) (rc + 1) (iterationStep cfg (o it) rc task st).1 t2 hp'
          (Or.inl hst') (by omega) (by omega)
      refine ⟨ih1, ⟨t3, ?_, by rw [ih3, hid'], ih4⟩, ?_⟩
      · rw [ih2, hcomp]
      · rw [ih5, hcount]
        omega
    · have hrceq : cfg.retryLimit ≤ rc := by omega
      obtain ⟨hp', ⟨t2, hc', hid', hst'⟩, hcount, hrc', hstop⟩ :=
        iterationStep_rejectExhausted hreq (hsuc it) (hrej it) (Or.inr hrceq) hp
      have hstop' : (iterationStep cfg (o it) rc task st).2.2 = false := by
        rw [hstop]
        simp [Nat.not_lt.mpr (htime it)]
      rw [hstop']
      simp only [Bool.false_eq_true, if_false]
      rw [runLoop_noTask cfg o f (it + 1) _ _ (getNextTask_of_nil hp')]
      refine ⟨hp', ⟨t2, hc', hid', hst'⟩, ?_⟩
      rw [hcount]
      omega

/-- Retry bound: on a singleton pending collection, with a review oracle that
always rejects, the loop performs at most `retryLimit - rc + 1` further
executions — whatever the execution outcomes, the configuration flags and the
fuel. -/
lemma singleTask_reject_bound (cfg : WorkflowConfig) (o : Nat → IterOracle)
    (hrej : ∀ i, reviewApprovedFlag (o i).reviewParse = false) :
    ∀ fuel it rc (st : OrchState) (task : Task),
      st.cm.pendingTasks = [task] → rc ≤ cfg.retryLimit →
      execStarts (runLoop cfg o fuel it rc st).cm ≤
        execStarts st.cm + (cfg.retryLimit - rc) + 1 := by
  intro fuel
  induction fuel with
  | zero => intro it rc st task _ _; simp [runLoop]; omega
  | succ f ih =>
    intro it rc st task hp hrc
    cases hget : st.cm.getNextTask with
    | none =>
      rw [runLoop, hget]
      dsimp only
      omega
    | some task2 =>
      have htask2 : task2 = task := by
        have := getNextTask_mem hget
        rw [hp] at this
        simpa using this
      subst htask2
      rw [runLoop, hget]
      dsimp only
      cases hexec : (execOutcome (o it).execParse (o it).browser).1 with
      | false =>
        obtain ⟨⟨t2, hp', hid', hst'⟩, _, hcount, hrc', _⟩ :=
          @iterationStep_execFail cfg (o it) rc task2 st hexec hp
        cases hstop : (iterationStep cfg (o it) rc task2 st).2.2 with
        | true =>
          rw [if_pos rfl]
          omega
        | false =>
          rw [if_neg Bool.false_ne_true]
          rw [hrc', runLoop_noTask cfg o f (it + 1) _ _
            (getNextTask_singleton_failed hp' hst')]
          omega
      | true =>
        cases hreq : cfg.requireReview with
        | false =>
          obtain ⟨hp', _, hcount, hrc', _⟩ :=
            @iterationStep_noReview cfg (o it) rc task2 st hreq hexec hp
          cases hstop : (iterationStep cfg (o it) rc task2 st).2.2 with
          | true => rw [if_pos rfl]; omega
          | false =>
            rw [if_neg Bool.false_ne_true]
            rw [hrc', runLoop_noTask cfg o f (it + 1) _ _ (getNextTask_of_nil hp')]
            omega
        | true =>
          cases hretry : (cfg.autoRetry && decide (rc < cfg.retryLimit)) with
          | true =>
            obtain ⟨ha, hb⟩ := Bool.and_eq_true_iff.mp hretry
            have hlt : rc < cfg.retryLimit := of_decide_eq_true hb
            obtain ⟨hstop, hrc', ⟨t2, hp', hid', hst'⟩, _, hcount⟩ :=
              iterationStep_retry hreq hexec (hrej it) ha hlt hp
            rw [hstop, if_neg Bool.false_ne_true]
            rw [hrc']
            have := ih (it + 1) (rc + 1) (iterationStep cfg (o it) rc task2 st).1
              t2 hp' (by omega)
            rw [hcount] at this
            omega
          | false =>
            have hnoretry : cfg.autoRetry = false ∨ cfg.retryLimit ≤ rc := by
              rcases Bool.and_eq_false_iff.mp hretry with h | h
              · exact Or.inl h
              · exact Or.inr (Nat.not_lt.mp (of_decide_eq_false h))
            obtain ⟨hp', _, hcount, hrc', _⟩ :=
              iterationStep_rejectExhausted hreq hexec (hrej it) hnoretry hp
            cases hstop : (iterationStep cfg (o it) rc task2 st).2.2 with
            | true => rw [if_pos rfl]; omega
            | false =>
              rw [if_neg Bool.false_ne_true]
              rw [hrc', runLoop_noTask cfg o f (it + 1) _ _ (getNextTask_of_nil hp')]
              omega

/-! ## Persistence of failed tasks -/

lemma mem_updateFirstTask_of_ne {t : Task} (tid : String) (f : Task → Task) :
    ∀ l : List Task, t ∈ l → t.id ≠ tid → t ∈ updateFirstTask tid f l := by
  intro l
  induction l with
  | nil => intro h; simp at h
  | cons hd ts ih =>
    intro hm hne
    unfold updateFirstTask
    by_cases hh : hd.id = tid
    · rw [if_pos hh]
      rcases List.mem_cons.mp hm with rfl | hts
      · exact absurd hh hne
      · exact List.mem_cons_of_mem _ hts
    · rw [if_neg hh]
      rcases List.mem_cons.mp hm with rfl | hts
      · exact List.mem_cons_self _ _
      · exact List.mem_cons_of_mem _ (ih hts hne)

lemma mem_pending_updateTask {cm : ContextManager} {t : Task} (tid u)
    (hm : t ∈ cm.pendingTasks) (hne : t.id ≠ tid) :
    t ∈ (cm.updateTask tid u).pendingTasks := by
  rw [updateTask_pendingTasks]
  exact mem_updateFirstTask_of_ne tid _ _ hm hne

lemma mem_pending_reviewTaskResult {cm : ContextManager} {t : Task}
    (task : Task) (r parsed) (hm : t ∈ cm.pendingTasks) (hne : t.id ≠ task.id) :
    t ∈ (ReviewerAgent.reviewTaskResult task r parsed cm).2.pendingTasks := by
  unfold ReviewerAgent.reviewTaskResult
  dsimp only
  rw [updateTask_pendingTasks]
  simp only [addHistory_pendingTasks]
  exact mem_updateFirstTask_of_ne _ _ _ hm hne

lemma mem_pending_completeTask {cm : ContextManager} {t : Task} (tid r)
    (hm : t ∈ cm.pendingTasks) (hne : t.id ≠ tid) :
    t ∈ (cm.completeTask tid r).pendingTasks := by
  unfold ContextManager.completeTask
  cases he : extractFirst tid cm.pendingTasks with
  | none => exact hm
  | some pr =>
    rcases pr with ⟨u, rest⟩
    exact extractFirst_mem_rest tid cm.pendingTasks u rest hm hne he

lemma mem_pending_execute {cm : ContextManager} {t : Task} (task parsed b)
    (hm : t ∈ cm.pendingTasks) :
    t ∈ (ExecutorAgent.execute task parsed b cm).2.1.pendingTasks := by
  rw [execute_ctx_pendingTasks]
  exact hm

lemma mem_pending_completePhase {cm : ContextManager} {t : Task}
    (cfg orc rc task er msgs) (hm : t ∈ cm.pendingTasks) (hne : t.id ≠ task.id) :
    t ∈ (completePhase cfg orc rc task er cm msgs).1.cm.pendingTasks := by
  unfold completePhase
  by_cases hs : er.success
  · simp only [hs, if_true]
    exact mem_pending_completeTask _ _ hm hne
  · simp only [Bool.not_eq_true] at hs
    simp only [hs, Bool.false_eq_true, if_false]
    exact mem_pending_updateTask _ _ hm hne

lemma mem_pending_iterationStep {st : OrchState} {t : Task}
    (cfg orc rc task) (hm : t ∈ st.cm.pendingTasks) (hne : t.id ≠ task.id) :
    t ∈ (iterationStep cfg orc rc task st).1.cm.pendingTasks := by
  have h1 : t ∈ (st.cm.updateTask task.id
      { status := some .in_progress }).pendingTasks :=
    mem_pending_updateTask _ _ hm hne
  have h2 := mem_pending_execute task orc.execParse orc.browser h1
  unfold iterationStep
  dsimp only
  split
  · split
    · exact mem_pending_updateTask _ _
        (mem_pending_reviewTaskResult task _ _ h2 hne) hne
    · exact mem_pending_completePhase _ _ _ _ _ _
        (mem_pending_reviewTaskResult task _ _ h2 hne) hne
  · exact mem_pending_completePhase _ _ _ _ _ _ h2 hne

/-- Once a task has been marked `failed` it stays in `pendingTasks`,
untouched, for the rest of the loop: `getNextTask` never selects it, and the
selected id (distinct, by the id invariant) is the only one updated. -/
lemma failed_persist_runLoop (cfg : WorkflowConfig) (o : Nat → IterOracle) :
    ∀ fuel it rc (st : OrchState) (t : Task), TasksInv st.cm →
      t ∈ st.cm.pendingTasks → t.status = .failed →
      t ∈ (runLoop cfg o fuel it rc st).cm.pendingTasks := by
  intro fuel
  induction fuel with
  | zero => intro it rc st t _ hm _; simpa [runLoop] using hm
  | succ f ih =>
    intro it rc st t hinv hm hst
    cases hget : st.cm.getNextTask with
    | none => rw [runLoop, hget]; exact hm
    | some task =>
      have htmem := getNextTask_mem hget
      have htstat := getNextTask_status hget
      have hne : t.id ≠ task.id := by
        intro heq
        have hnodpend : (st.cm.pendingTasks.map Task.id).Nodup := by
          have := hinv
          unfold TasksInv taskIds at this
          rw [List.map_append] at this
          exact (List.nodup_append.mp this).2.1
        have := List.inj_on_of_nodup_map hnodpend hm htmem heq
        rw [this] at hst
        rcases htstat with h | h <;> rw [hst] at h <;> cases h
      rw [runLoop, hget]
      dsimp only
      split
      · exact mem_pending_iterationStep cfg (o it) rc task hm hne
      · exact ih (it + 1) _ _ t (tasksInv_iterationStep hinv cfg (o it) rc task)
          (mem_pending_iterationStep cfg (o it) rc task hm hne) hst

/-! ## Keyed memory: last-write-wins -/

lemma find?_setMemoryList_self (item : MemoryItem) :
    ∀ l : List MemoryItem,
      (setMemoryList item l).find? (fun m => m.key == item.key) = some item := by
  intro l
  induction l with
  | nil => simp [setMemoryList, List.find?]
  | cons m ms ih =>
    unfold setMemoryList
    by_cases h : m.key = item.key
    · rw [if_pos h]
      simp [List.find?]
    · rw [if_neg h]
      simp only [List.find?]
      rw [show (m.key == item.key) = false from beq_eq_false_iff_ne.mpr h]
      exact ih

lemma find?_setMemoryList_ne (item : MemoryItem) (k2 : String)
    (hk : k2 ≠ item.key) :
    ∀ l : List MemoryItem,
      (setMemoryList item l).find? (fun m => m.key == k2) =
        l.find? (fun m => m.key == k2) := by
  intro l
  induction l with
  | nil =>
    simp only [setMemoryList, List.find?]
    rw [show (item.key == k2) = false from beq_eq_false_iff_ne.mpr (Ne.symm hk)]
  | cons m ms ih =>
    unfold setMemoryList
    by_cases h : m.key = item.key
    · rw [if_pos h]
      simp only [List.find?]
      rw [show (item.key == k2) = false from beq_eq_false_iff_ne.mpr (Ne.symm hk),
        show (m.key == k2) = false from
          beq_eq_false_iff_ne.mpr (fun he => hk (by rw [← he, h]))]
    · rw [if_neg h]
      simp only [List.find?]
      cases hm : (m.key == k2) with
      | true => rfl
      | false => exact ih

lemma mem_keys_setMemoryList (item : MemoryItem) :
    ∀ (l : List MemoryItem) (x : String),
      x ∈ (setMemoryList item l).map (·.key) →
      x = item.key ∨ x ∈ l.map (·.key) := by
  intro l
  induction l with
  | nil => intro x hx; simp [setMemoryList] at hx; exact Or.inl hx
  | cons m ms ih =>
    intro x hx
    unfold setMemoryList at hx
    by_cases h : m.key = item.key
    · rw [if_pos h] at hx
      rcases List.mem_cons.mp hx with h1 | h1
      · exact Or.inl (by simpa using h1)
      · exact Or.inr (List.mem_cons_of_mem _ (by simpa using h1))
    · rw [if_neg h] at hx
      simp only [List.map_cons, List.mem_cons] at hx
      rcases hx with h1 | h1
      · exact Or.inr (by simp [h1])
      · rcases ih x h1 with h2 | h2
        · exact Or.inl h2
        · exact Or.inr (List.mem_cons_of_mem _ h2)

lemma keys_nodup_setMemoryList (item : MemoryItem) :
    ∀ l : List MemoryItem, (l.map (·.key)).Nodup →
      ((setMemoryList item l).map (·.key)).Nodup := by
  intro l
  induction l with
  | nil => intro _; simp [setMemoryList]
  | cons m ms ih =>
    intro hnd
    simp only [List.map_cons, List.nodup_cons] at hnd
    unfold setMemoryList
    by_cases h : m.key = item.key
    · rw [if_pos h]
      simp only [List.map_cons, List.nodup_cons]
      exact ⟨by rw [← h]; exact hnd.1, hnd.2⟩
    · rw [if_neg h]
      simp only [List.map_cons, List.nodup_cons]
      refine ⟨?_, ih hnd.2⟩
      intro hmem
      rcases mem_keys_setMemoryList item ms m.key hmem with h1 | h1
      · exact h h1
      · exact hnd.1 h1

lemma countP_key_setMemoryList (item : MemoryItem) :
    ∀ l : List MemoryItem, (l.map (·.key)).Nodup →
      (setMemoryList item l).countP (fun m => m.key == item.key) = 1 := by
  intro l
  induction l with
  | nil => intro _; simp [setMemoryList, List.countP, List.countP.go]
  | cons m ms ih =>
    intro hnd
    simp only [List.map_cons, List.nodup_cons] at hnd
    unfold setMemoryList
    by_cases h : m.key = item.key
    · rw [if_pos h]
      rw [List.countP_cons]
      simp only [beq_self_eq_true, if_pos]
      have hz : ms.countP (fun m => m.key == item.key) = 0 := by
        rw [List.countP_eq_zero]
        intro a ha
        simp only [beq_iff_eq]
        intro heq
        exact hnd.1 (by rw [h, ← heq]; exact List.mem_map_of_mem (·.key) ha)
      omega
    · rw [if_neg h]
      rw [List.countP_cons]
      rw [show (m.key == item.key) = false from beq_eq_false_iff_ne.mpr h]
      simp only [if_neg, Bool.false_eq_true, if_false, Nat.add_zero]
      exact ih hnd.2

lemma filter_ne_setMemoryList (item : MemoryItem) :
    ∀ l : List MemoryItem,
      (setMemoryList item l).filter (fun m => m.key != item.key) =
        l.filter (fun m => m.key != item.key) := by
  intro l
  induction l with
  | nil =>
    simp [setMemoryList, List.filter]
  | cons m ms ih =>
    unfold setMemoryList
    by_cases h : m.key = item.key
    · rw [if_pos h]
      simp only [List.filter]
      rw [show (m.key != item.key) = false by simp [h]]
      rw [show (item.key != item.key) = false by simp]
    · rw [if_neg h]
      simp only [List.filter]
      rw [show (m.key != item.key) = true by simp [h]]
      rw [ih]

@[simp] lemma setMemory_memory (cm : ContextManager) (k v s) :
    (cm.setMemory k v s).memory =
      setMemoryList { id := genIdStr cm.ctr, key := k, value := v, source := s
                      timestamp := cm.ctr } cm.memory := rfl

@[simp] lemma getMemory_def (cm : ContextManager) (k) :
    cm.getMemory k = (cm.memory.find? (fun m => m.key == k)).map (·.value) := rfl

/-! ## Run-level projections -/

lemma run_snd (goal cfg o) :
    (Orchestrator.run goal cfg o).2 =
      runLoop cfg o.iter cfg.maxIterations 0 0
        { cm := planningPhase goal cfg o, messages := [] } := rfl

lemma run_success_def (goal cfg o) :
    (Orchestrator.run goal cfg o).1.success =
      ((Orchestrator.run goal cfg o).2.cm.pendingTasks.length == 0) := rfl

lemma run_completedTasks_def (goal cfg o) :
    (Orchestrator.run goal cfg o).1.completedTasks =
      (Orchestrator.run goal cfg o).2.cm.completedTasks.length := rfl

lemma run_totalTasks_def (goal cfg o) :
    (Orchestrator.run goal cfg o).1.totalTasks =
      (((Orchestrator.run goal cfg o).2.cm.currentPlan.map (·.tasks.length)).getD 0) := rfl

lemma planningPhase_approved (goal cfg o) (hreq : cfg.requireReview = true)
    (happ : reviewApprovedFlag o.planReviewParse = true) :
    planningPhase goal cfg o =
      (PlannerAgent.createPlan goal o.planParse (ContextManager.init goal)).2 := by
  unfold planningPhase
  dsimp only
  rw [hreq]
  simp only [if_true]
  rw [reviewPlan_approved, happ]
  simp

/-! ## Concrete scenario inputs -/

/-- A browser oracle whose calls all succeed. -/
def exBrowser : BrowserOracle :=
  { login := true
    extractCarers := []
    selectCarer := fun _ => true
    navigateToForm := true
    fillForm := fun _ => true
    submitForm := fun _ => (true, "ok")
    getPageState := "page" }

/-- Iteration oracle: executor parses `GET_STATE` (which always succeeds) and
the reviewer's parsed response rejects. -/
def rejectIter : IterOracle :=
  { execParse := some { action := some "GET_STATE" }
    browser := exBrowser
    reviewParse := some { approved := some false, feedback := some "bad"
                          suggestions := none }
    elapsed := 0 }

/-- Iteration oracle whose reviewer approves. -/
def approveIter : IterOracle :=
  { rejectIter with
    reviewParse := some { approved := some true, feedback := some "good"
                          suggestions := none } }

/-- Iteration oracle whose executor response fails to parse. -/
def failParseIter : IterOracle := { rejectIter with execParse := none }

/-- A planner response parsing to a single task. -/
def singleTaskPlan : ParsedPlan :=
  { tasks := some [{ description := "t", priority := "high", dependencies := none }] }

/-- Scenario C of the spec: one task, execution succeeds, review always
rejects, plan review approves (parse failure defaults to approval). -/
def scenarioC : RunOracles :=
  { planParse := some singleTaskPlan
    planReviewParse := none
    reviseParse := none
    iter := fun _ => rejectIter }

/-- Scenario A of the spec: the planner response parses to zero tasks. -/
def scenarioA : RunOracles :=
  { scenarioC with planParse := some { tasks := some [] } }

/-- One task whose execution fails (executor parse failure). -/
def scenarioFail : RunOracles := { scenarioC with iter := fun _ => failParseIter }

@[simp] lemma execStarts_setPlan (cm : ContextManager) (plan) :
    execStarts (cm.setPlan plan) = execStarts cm := rfl

lemma execStarts_createPlan (goal p) (cm : ContextManager) :
    execStarts (PlannerAgent.createPlan goal p cm).2 = execStarts cm := by
  have h1 : (("create_plan" == "execute_start") : Bool) = false := by decide
  have h2 : (("plan_created" == "execute_start") : Bool) = false := by decide
  simp [PlannerAgent.createPlan, ContextManager.setPlan, ContextManager.addHistory,
    execStarts, List.countP_append, List.countP_cons, h1, h2]

lemma execStarts_revisePlan (f p) (cm : ContextManager) :
    execStarts (PlannerAgent.revisePlan f p cm).2 = execStarts cm := rfl

lemma execStarts_planningPhase (goal cfg o) :
    execStarts (planningPhase goal cfg o) = 0 := by
  unfold planningPhase
  dsimp only
  split
  · split
    · rw [execStarts_revisePlan, execStarts_createPlan]; rfl
    · rw [execStarts_createPlan]; rfl
  · rw [execStarts_createPlan]; rfl

/-- When the parsed plan has exactly one task and the plan review approves,
the loop starts on that single freshly planned task. -/
lemma planningPhase_single (goal cfg o) (pt : ParsedTask)
    (hreq : cfg.requireReview = true)
    (happ : reviewApprovedFlag o.planReviewParse = true)
    (hplan : planParsedTasks o.planParse = [pt]) :
    (planningPhase goal cfg o).pendingTasks = [mkPlanTask 2 0 pt] := by
  rw [planningPhase_approved goal cfg o hreq happ, createPlan_pendingTasks, hplan]
  rfl

/-! ## Claim C1 -/

/-- C1 counterexample: requireReview=true, autoRetry=true, retryLimit=2
(the default config), a single task whose execution succeeds and whose review
is rejected on every attempt.  Contrary to the claim, once the retry budget
is exhausted the task does NOT end in status `rejected`: the fall-through
`if (execResult.success)` completes it, it IS moved to `completedTasks`
(with status `completed`), and the WorkflowResult has `success = true`. -/
theorem C1_counterexample :
    (Orchestrator.run "goal" DEFAULT_CONFIG scenarioC).1.success = true ∧
    (Orchestrator.run "goal" DEFAULT_CONFIG scenarioC).2.cm.completedTasks.map
      Task.status = [.completed] ∧
    (Orchestrator.run "goal" DEFAULT_CONFIG scenarioC).2.cm.completedTasks.map
      Task.id = ["task-0"] ∧
    (Orchestrator.run "goal" DEFAULT_CONFIG scenarioC).2.cm.pendingTasks = [] := by
  set_option maxRecDepth 4000 in decide

/-- C1 (amended): for a run with requireReview=true, autoRetry=true,
retryLimit=2 and a single task whose execution succeeds but whose review is
rejected on every attempt, once the retry budget is exhausted the
still-successful execution result completes the task anyway: it ends with
status `completed`, it IS moved to `completedTasks`, and the WorkflowResult
has `success = true` (for any `maxIterations ≥ 3` and any timeout not
exceeded during the run). -/
theorem C1_amended (M T : Nat) (o : RunOracles) (goal : String) (pt : ParsedTask)
    (hM : 3 ≤ M)
    (hplan : planParsedTasks o.planParse = [pt])
    (happ : reviewApprovedFlag o.planReviewParse = true)
    (hsuc : ∀ i, (execOutcome (o.iter i).execParse (o.iter i).browser).1 = true)
    (hrej : ∀ i, reviewApprovedFlag (o.iter i).reviewParse = false)
    (htime : ∀ i, (o.iter i).elapsed ≤ T) :
    (Orchestrator.run goal ⟨M, true, true, 2, T⟩ o).1.success = true ∧
    (Orchestrator.run goal ⟨M, true, true, 2, T⟩ o).2.cm.pendingTasks = [] ∧
    (Orchestrator.run goal ⟨M, true, true, 2, T⟩ o).2.cm.completedTasks.map
      Task.status = [.completed] ∧
    (Orchestrator.run goal ⟨M, true, true, 2, T⟩ o).1.completedTasks = 1 := by
  have hp := planningPhase_single goal ⟨M, true, true, 2, T⟩ o pt rfl happ hplan
  obtain ⟨h1, ⟨t2, h2, hid2, hst2⟩, h3⟩ :=
    singleTask_reject_runLoop ⟨M, true, true, 2, T⟩ o.iter rfl rfl hsuc hrej htime
      M 0 0 { cm := planningPhase goal ⟨M, true, true, 2, T⟩ o, messages := [] }
      (mkPlanTask 2 0 pt) hp (Or.inl rfl) (by omega) (by simpa using (by omega : 2 < M))
  have hcompl : (planningPhase goal ⟨M, true, true, 2, T⟩ o).completedTasks = [] :=
    planningPhase_completedTasks goal ⟨M, true, true, 2, T⟩ o
  refine ⟨?_, ?_, ?_, ?_⟩
  · rw [run_success_def, run_snd, h1]
    rfl
  · rw [run_snd]
    exact h1
  · rw [run_snd, h2]
    simp only [hcompl, List.nil_append, List.map_cons, List.map_nil, hst2]
  · rw [run_completedTasks_def, run_snd, h2]
    simp [hcompl]

/-- Witness for `C1_amended` at the concrete Scenario-C oracles. -/
theorem C1_amended_witness :
    (Orchestrator.run "goal" ⟨15, true, true, 2, 300000⟩ scenarioC).1.success = true ∧
    (Orchestrator.run "goal" ⟨15, true, true, 2, 300000⟩ scenarioC).2.cm.pendingTasks = [] ∧
    (Orchestrator.run "goal" ⟨15, true, true, 2, 300000⟩ scenarioC).2.cm.completedTasks.map
      Task.status = [.completed] ∧
    (Orchestrator.run "goal" ⟨15, true, true, 2, 300000⟩ scenarioC).1.completedTasks = 1 :=
  C1_amended 15 300000 scenarioC "goal"
    { description := "t", priority := "high", dependencies := none }
    (by decide) rfl rfl (fun i => rfl) (fun i => rfl) (fun i => Nat.zero_le _)

/-! ## Claim C5 -/

/-- C5 counterexample: with the default config (retryLimit = 2), a single
task whose execution succeeds and whose review always rejects is executed
exactly 3 = N+1 times (the bound holds), but it is then NOT left in a
`rejected` or `failed` state: the only task in either collection ends with
status `completed`. -/
theorem C5_counterexample :
    ((Orchestrator.run "goal" DEFAULT_CONFIG scenarioC).2.cm.completedTasks ++
      (Orchestrator.run "goal" DEFAULT_CONFIG scenarioC).2.cm.pendingTasks).map
        Task.status = [.completed] ∧
    execStarts (Orchestrator.run "goal" DEFAULT_CONFIG scenarioC).2.cm = 3 := by
  set_option maxRecDepth 4000 in decide

/-- C5 (amended): with retryLimit=N and a review oracle that always rejects,
a single planned task is executed at most N+1 times, whatever the execution
outcomes, flags and iteration cap — the loop never re-attempts it
indefinitely.  When additionally autoRetry is on, every execution succeeds,
the timeout is not hit and N < maxIterations, after the (N+1)-th rejected
attempt the task is not left `rejected`: it is completed and moved to
`completedTasks`. -/
theorem C5_amended (cfg : WorkflowConfig) (o : RunOracles) (goal : String)
    (pt : ParsedTask)
    (hreq : cfg.requireReview = true)
    (hplan : planParsedTasks o.planParse = [pt])
    (happ : reviewApprovedFlag o.planReviewParse = true)
    (hrej : ∀ i, reviewApprovedFlag (o.iter i).reviewParse = false) :
    execStarts (Orchestrator.run goal cfg o).2.cm ≤ cfg.retryLimit + 1 ∧
    (cfg.autoRetry = true →
      (∀ i, (execOutcome (o.iter i).execParse (o.iter i).browser).1 = true) →
      (∀ i, (o.iter i).elapsed ≤ cfg.timeout) →
      cfg.retryLimit < cfg.maxIterations →
      (Orchestrator.run goal cfg o).2.cm.pendingTasks = [] ∧
      (Orchestrator.run goal cfg o).2.cm.completedTasks.map Task.status =
        [.completed]) := by
  have hp := planningPhase_single goal cfg o pt hreq happ hplan
  have hz := execStarts_planningPhase goal cfg o
  constructor
  · rw [run_snd]
    have hb := singleTask_reject_bound cfg o.iter hrej cfg.maxIterations 0 0
      { cm := planningPhase goal cfg o, messages := [] } (mkPlanTask 2 0 pt) hp
      (Nat.zero_le _)
    rw [hz] at hb
    omega
  · intro hauto hsuc htime hlt
    obtain ⟨h1, ⟨t2, h2, hid2, hst2⟩, _⟩ :=
      singleTask_reject_runLoop cfg o.iter hreq hauto hsuc hrej htime
        cfg.maxIterations 0 0 { cm := planningPhase goal cfg o, messages := [] }
        (mkPlanTask 2 0 pt) hp (Or.inl rfl) (Nat.zero_le _) (by omega)
    have hcompl := planningPhase_completedTasks goal cfg o
    refine ⟨?_, ?_⟩
    · rw [run_snd]; exact h1
    · rw [run_snd, h2]
      simp only [hcompl, List.nil_append, List.map_cons, List.map_nil, hst2]

/-- Witness for `C5_amended` at the concrete Scenario-C oracles. -/
theorem C5_amended_witness :
    execStarts (Orchestrator.run "goal" DEFAULT_CONFIG scenarioC).2.cm ≤
      DEFAULT_CONFIG.retryLimit + 1 ∧
    (Orchestrator.run "goal" DEFAULT_CONFIG scenarioC).2.cm.pendingTasks = [] ∧
    (Orchestrator.run "goal" DEFAULT_CONFIG scenarioC).2.cm.completedTasks.map
      Task.status = [.completed] :=
  have h := C5_amended DEFAULT_CONFIG scenarioC "goal"
    { description := "t", priority := "high", dependencies := none }
    rfl rfl rfl (fun i => rfl)
  ⟨h.1, h.2 rfl (fun i => rfl) (fun i => Nat.zero_le _) (by decide)⟩

/-! ## Claim C4 -/

lemma completePhase_rc (cfg orc rc task er cm msgs) :
    (completePhase cfg orc rc task er cm msgs).2.1 = rc := rfl

/-- A concrete pending task and orchestrator state for the C4 instances. -/
def cTask : Task :=
  { id := "task-0", description := "t", status := .pending, assignedAgent := none
    priority := "high", dependencies := none, result := none
    createdAt := 0, updatedAt := 0 }

def cState : OrchState :=
  { cm := { ContextManager.init "g" with pendingTasks := [cTask] }, messages := [] }

/-- C4 counterexample: an iteration whose execution succeeded, whose review
was rejected and whose retry budget is exhausted (`rc = retryLimit = 2`)
completes the task via `completeTask(id, {success:true, ...})` — the task
lands in `completedTasks` with status `completed` and a `success:true`
result — yet the retry counter passed to the next iteration is still 2, not
0, so the next task does NOT start with the full retry budget. -/
theorem C4_counterexample :
    (iterationStep DEFAULT_CONFIG rejectIter 2 cTask cState).1.cm.completedTasks.map
      Task.status = [.completed] ∧
    (iterationStep DEFAULT_CONFIG rejectIter 2 cTask cState).1.cm.completedTasks.map
      (fun t => t.result.map TaskResult.success) = [some true] ∧
    (iterationStep DEFAULT_CONFIG rejectIter 2 cTask cState).2.1 = 2 := by
  decide

/-- C4 (amended): in an iteration whose execution succeeded and with review
required, the retry counter is reset to zero exactly when the review approves
the result; when the task is completed through the exhausted-retry
fall-through (review rejected and no retry available), the counter keeps its
current value, so the next task may start with a reduced retry budget. -/
theorem C4_amended (cfg : WorkflowConfig) (orc : IterOracle) (rc : Nat)
    (task : Task) (st : OrchState)
    (hreq : cfg.requireReview = true)
    (hsuc : (execOutcome orc.execParse orc.browser).1 = true) :
    (reviewApprovedFlag orc.reviewParse = true →
      (iterationStep cfg orc rc task st).2.1 = 0) ∧
    (reviewApprovedFlag orc.reviewParse = false →
      (cfg.autoRetry = false ∨ cfg.retryLimit ≤ rc) →
      (iterationStep cfg orc rc task st).2.1 = rc) := by
  constructor
  · intro happ
    unfold iterationStep
    dsimp only
    rw [execute_success, hsuc, hreq]
    simp only [Bool.and_self, if_true]
    rw [reviewTaskResult_approved, happ]
    simp only [Bool.not_true, Bool.false_and, Bool.false_eq_true, if_false,
      if_true, completePhase_rc]
  · intro hrej hnoretry
    have hcond : (cfg.autoRetry && decide (rc < cfg.retryLimit)) = false := by
      rcases hnoretry with h | h
      · simp [h]
      · simp [Nat.not_lt.mpr h]
    unfold iterationStep
    dsimp only
    rw [execute_success, hsuc, hreq]
    simp only [Bool.and_self, if_true]
    rw [reviewTaskResult_approved, hrej]
    simp only [Bool.not_false, Bool.true_and, hcond, Bool.and_false,
      Bool.false_eq_true, if_false, completePhase_rc]

/-- Witness for `C4_amended`: approval resets the counter to 0; an
exhausted-retry completion keeps it at 2. -/
theorem C4_amended_witness :
    (iterationStep DEFAULT_CONFIG approveIter 1 cTask cState).2.1 = 0 ∧
    (iterationStep DEFAULT_CONFIG rejectIter 2 cTask cState).2.1 = 2 :=
  ⟨(C4_amended DEFAULT_CONFIG approveIter 1 cTask cState rfl rfl).1 rfl,
   (C4_amended DEFAULT_CONFIG rejectIter 2 cTask cState rfl rfl).2 rfl
     (Or.inr (by decide))⟩

/-! ## Claim C2 -/

/-- A context whose current plan holds an already-completed task (as arises
after completions within a session). -/
def doneTask : Task :=
  { id := "c0", description := "done", status := .completed, assignedAgent := none
    priority := "high", dependencies := none, result := none
    createdAt := 0, updatedAt := 0 }

def cmWithDonePlan : ContextManager :=
  { ContextManager.init "g" with
    currentPlan := some { id := "pl", goal := "g", tasks := [doneTask]
                          estimatedSteps := 1, createdAt := 0 }
    completedTasks := [doneTask] }

def newTasksParsed : ParsedPlan :=
  { tasks := some [{ description := "new", priority := "low", dependencies := none }] }

/-- C2 counterexample: on a context whose plan contains a completed task,
`revisePlan` does NOT make `pendingTasks` consist exactly of the newly parsed
task list — the already-completed task is re-added to `pendingTasks` (it is
simultaneously still in `completedTasks`). -/
theorem C2_counterexample :
    (PlannerAgent.revisePlan "fb" (some newTasksParsed) cmWithDonePlan).2.pendingTasks.map
      Task.id = ["c0", "task-r-0"] ∧
    doneTask ∈ (PlannerAgent.revisePlan "fb" (some newTasksParsed)
      cmWithDonePlan).2.pendingTasks ∧
    doneTask.status = .completed ∧
    doneTask ∈ (PlannerAgent.revisePlan "fb" (some newTasksParsed)
      cmWithDonePlan).2.completedTasks := by
  decide

/-- C2 (amended): after `revisePlan(feedback)` the `pendingTasks` collection
is the current plan's `completed` tasks followed by the newly parsed task
list: previously pending non-completed tasks are discarded and the newly
parsed tasks are installed, but already-completed tasks are both preserved in
the plan AND re-added to `pendingTasks` (because `setPlan` reseeds
`pendingTasks` from the full task list of the revised plan). -/
theorem C2_amended (f : String) (p : Option ParsedPlan) (cm : ContextManager) :
    (PlannerAgent.revisePlan f p cm).2.pendingTasks =
      ((cm.currentPlan.map (·.tasks)).getD []).filter
        (fun t => t.status == .completed) ++
        mapWithIndex (mkReviseTask cm.ctr) 0 (planParsedTasks p) ∧
    (∀ t ∈ (cm.currentPlan.map (·.tasks)).getD [], t.status = .completed →
      t ∈ (PlannerAgent.revisePlan f p cm).1.tasks ∧
      t ∈ (PlannerAgent.revisePlan f p cm).2.pendingTasks) := by
  refine ⟨revisePlan_pendingTasks f p cm, ?_⟩
  intro t hm hst
  have hmem : t ∈ ((cm.currentPlan.map (·.tasks)).getD []).filter
      (fun t => t.status == .completed) :=
    List.mem_filter.mpr ⟨hm, by simp [hst]⟩
  constructor
  · rw [revisePlan_plan_tasks]
    exact List.mem_append_left _ hmem
  · rw [revisePlan_pendingTasks]
    exact List.mem_append_left _ hmem

/-- Witness for `C2_amended` at the concrete context with a completed task. -/
theorem C2_amended_witness :
    (PlannerAgent.revisePlan "fb" (some newTasksParsed) cmWithDonePlan).2.pendingTasks =
      ((cmWithDonePlan.currentPlan.map (·.tasks)).getD []).filter
        (fun t => t.status == .completed) ++
        mapWithIndex (mkReviseTask cmWithDonePlan.ctr) 0
          (planParsedTasks (some newTasksParsed)) ∧
    doneTask ∈ (PlannerAgent.revisePlan "fb" (some newTasksParsed)
      cmWithDonePlan).1.tasks :=
  ⟨(C2_amended "fb" (some newTasksParsed) cmWithDonePlan).1,
   ((C2_amended "fb" (some newTasksParsed) cmWithDonePlan).2 doneTask
     (by decide) rfl).1⟩

/-! ## Claim C3 -/

/-- C3: at the end of any run, `completedTasks` and `pendingTasks` are
disjoint (no shared task/id) and every task across the two collections has a
unique id; moreover the id-uniqueness invariant `TasksInv` (which forces each
task to live in exactly one of the two collections) is preserved by every
prefix of the orchestrator loop, i.e. it holds throughout a run. -/
theorem C3 :
    (∀ goal cfg o,
      (∀ t ∈ (Orchestrator.run goal cfg o).2.cm.completedTasks,
        ∀ u ∈ (Orchestrator.run goal cfg o).2.cm.pendingTasks, t.id ≠ u.id) ∧
      (((Orchestrator.run goal cfg o).2.cm.completedTasks ++
        (Orchestrator.run goal cfg o).2.cm.pendingTasks).map Task.id).Nodup) ∧
    (∀ cfg oIt fuel it rc st, TasksInv st.cm →
      TasksInv (runLoop cfg oIt fuel it rc st).cm) := by
  constructor
  · intro goal cfg o
    have hfin : TasksInv (Orchestrator.run goal cfg o).2.cm := by
      rw [run_snd]
      exact tasksInv_runLoop cfg o.iter _ _ _ _ (planningPhase_tasksInv goal cfg o)
    unfold TasksInv taskIds at hfin
    refine ⟨?_, hfin⟩
    rw [List.map_append] at hfin
    have hd := (List.nodup_append.mp hfin).2.2
    intro t ht u hu heq
    exact hd (List.mem_map_of_mem Task.id ht) (heq ▸ List.mem_map_of_mem Task.id hu)
  · intro cfg oIt fuel it rc st h
    exact tasksInv_runLoop cfg oIt fuel it rc st h

/-- Witness for `C3` at a concrete loop state. -/
theorem C3_witness :
    TasksInv cState.cm ∧
    TasksInv (runLoop DEFAULT_CONFIG (fun _ => rejectIter) 15 0 0 cState).cm :=
  ⟨by decide, C3.2 DEFAULT_CONFIG (fun _ => rejectIter) 15 0 0 cState (by decide)⟩

/-! ## Claim C6 -/

lemma revisePlan_currentPlan (f p) (cm : ContextManager) :
    (PlannerAgent.revisePlan f p cm).2.currentPlan =
      some (PlannerAgent.revisePlan f p cm).1 := rfl

lemma planningPhase_empty (goal cfg o)
    (hplan : planParsedTasks o.planParse = [])
    (hrev : planParsedTasks o.reviseParse = []) :
    (planningPhase goal cfg o).pendingTasks = [] ∧
    (((planningPhase goal cfg o).currentPlan.map (·.tasks.length)).getD 0) = 0 := by
  unfold planningPhase
  dsimp only
  split
  · split
    · constructor
      · rw [revisePlan_pendingTasks, hrev]
        have hcp := createPlan_currentPlan goal o.planParse (ContextManager.init goal)
        rw [hcp]
        simp only [Option.map_some', Option.getD_some, createPlan_plan_tasks, hplan]
        rfl
      · rw [revisePlan_currentPlan]
        simp only [Option.map_some', Option.getD_some]
        rw [revisePlan_plan_tasks, hrev]
        have hcp := createPlan_currentPlan goal o.planParse (ContextManager.init goal)
        rw [hcp]
        simp only [Option.map_some', Option.getD_some, createPlan_plan_tasks, hplan]
        rfl
    · constructor
      · rw [createPlan_pendingTasks, hplan]; rfl
      · rw [createPlan_currentPlan]
        simp only [Option.map_some', Option.getD_some, createPlan_plan_tasks, hplan]
        rfl
  · constructor
    · rw [createPlan_pendingTasks, hplan]; rfl
    · rw [createPlan_currentPlan]
      simp only [Option.map_some', Option.getD_some, createPlan_plan_tasks, hplan]
      rfl

/-- C6: `createPlan` is total (the embedding returns for every parse outcome,
matching the source's fallback `parsed?.tasks || []`) and may install a plan
with zero tasks — in particular when the reasoning response parses to an
empty or missing task list.  Running the workflow on such a zero-task plan
(with the revise pass also parsing to no tasks, so the effective plan stays
empty under any plan-review outcome) yields `completedTasks = 0`,
`totalTasks = 0` and `success = true`. -/
theorem C6 (goal : String) (cfg : WorkflowConfig) (o : RunOracles)
    (hplan : planParsedTasks o.planParse = [])
    (hrev : planParsedTasks o.reviseParse = []) :
    (PlannerAgent.createPlan goal o.planParse (ContextManager.init goal)).1.tasks = [] ∧
    (Orchestrator.run goal cfg o).1.completedTasks = 0 ∧
    (Orchestrator.run goal cfg o).1.totalTasks = 0 ∧
    (Orchestrator.run goal cfg o).1.success = true := by
  obtain ⟨hpend, htot⟩ := planningPhase_empty goal cfg o hplan hrev
  have hnoloop : runLoop cfg o.iter cfg.maxIterations 0 0
      { cm := planningPhase goal cfg o, messages := [] } =
      { cm := planningPhase goal cfg o, messages := [] } :=
    runLoop_noTask cfg o.iter _ _ _ _ (getNextTask_of_nil hpend)
  refine ⟨?_, ?_, ?_, ?_⟩
  · rw [createPlan_plan_tasks, hplan]
    rfl
  · rw [run_completedTasks_def, run_snd, hnoloop]
    simp [planningPhase_completedTasks goal cfg o]
  · rw [run_totalTasks_def, run_snd, hnoloop]
    exact htot
  · rw [run_success_def, run_snd, hnoloop]
    simp [hpend]

/-- Witness for `C6` at the Scenario-A oracles. -/
theorem C6_witness :
    (PlannerAgent.createPlan "no-op" scenarioA.planParse
      (ContextManager.init "no-op")).1.tasks = [] ∧
    (Orchestrator.run "no-op" DEFAULT_CONFIG scenarioA).1.completedTasks = 0 ∧
    (Orchestrator.run "no-op" DEFAULT_CONFIG scenarioA).1.totalTasks = 0 ∧
    (Orchestrator.run "no-op" DEFAULT_CONFIG scenarioA).1.success = true :=
  C6 "no-op" DEFAULT_CONFIG scenarioA rfl rfl

/-! ## Claim C7 -/

lemma mem_updateFirstTask {u : Task} (tid : String) (f : Task → Task) :
    ∀ l : List Task, u ∈ updateFirstTask tid f l → u ∈ l ∨ ∃ v ∈ l, u = f v := by
  intro l
  induction l with
  | nil => intro h; simp [updateFirstTask] at h
  | cons hd ts ih =>
    intro hm
    unfold updateFirstTask at hm
    by_cases hh : hd.id = tid
    · rw [if_pos hh] at hm
      rcases List.mem_cons.mp hm with rfl | hts
      · exact Or.inr ⟨hd, List.mem_cons_self _ _, rfl⟩
      · exact Or.inl (List.mem_cons_of_mem _ hts)
    · rw [if_neg hh] at hm
      rcases List.mem_cons.mp hm with rfl | hts
      · exact Or.inl (List.mem_cons_self _ _)
      · rcases ih hts with h1 | ⟨v, hv, rfl⟩
        · exact Or.inl (List.mem_cons_of_mem _ h1)
        · exact Or.inr ⟨v, List.mem_cons_of_mem _ hv, rfl⟩

/-- C7: when the reasoning response cannot be parsed into a review structure
(the parse oracle is `none`), both `reviewTaskResult` and `reviewPlan` return
a Review with `approved = true` (the fail-open default `parsed?.approved ??
true`); consequently such a malformed response never rejects anything — it
marks no pending task `rejected`. -/
theorem C7 (task : Task) (r : Option Value) (plan : Plan) (c : Nat)
    (cm : ContextManager) :
    (ReviewerAgent.reviewTaskResult task r none cm).1.approved = true ∧
    (ReviewerAgent.reviewPlan plan none c).approved = true ∧
    ((∀ u ∈ cm.pendingTasks, u.status ≠ .rejected) →
      ∀ u ∈ (ReviewerAgent.reviewTaskResult task r none cm).2.pendingTasks,
        u.status ≠ .rejected) := by
  refine ⟨rfl, rfl, ?_⟩
  intro hall u hu
  unfold ReviewerAgent.reviewTaskResult at hu
  dsimp only at hu
  rw [updateTask_pendingTasks] at hu
  simp only [addHistory_pendingTasks] at hu
  rcases mem_updateFirstTask _ _ _ hu with h1 | ⟨v, hv, rfl⟩
  · exact hall u h1
  · intro hcontra
    simp [applyTaskUpdate, reviewApprovedFlag] at hcontra

/-- A concrete empty plan for the C7 witness. -/
def cPlan : Plan :=
  { id := "pl", goal := "g", tasks := [], estimatedSteps := 0, createdAt := 0 }

/-- Witness for `C7` at concrete inputs. -/
theorem C7_witness :
    (ReviewerAgent.reviewTaskResult cTask none none cState.cm).1.approved = true ∧
    ∀ u ∈ (ReviewerAgent.reviewTaskResult cTask none none cState.cm).2.pendingTasks,
      u.status ≠ .rejected :=
  ⟨(C7 cTask none cPlan 0 cState.cm).1,
   (C7 cTask none cPlan 0 cState.cm).2.2 (by decide)⟩

/-! ## Claim C8 -/

/-- C8: when the executor's reasoning response cannot be parsed into an
`{action, params}` structure (parse oracle `none`), `execute` returns an
`ExecutionResult` with `success = false` and an empty `actions` list, the
dispatched-browser-call trace is empty (no Automation Capability call is
made), and the shared memory and state are untouched. -/
theorem C8 (task : Task) (b : BrowserOracle) (cm : ContextManager) :
    (ExecutorAgent.execute task none b cm).1.success = false ∧
    (ExecutorAgent.execute task none b cm).1.actions = [] ∧
    (ExecutorAgent.execute task none b cm).2.2 = [] ∧
    (ExecutorAgent.execute task none b cm).2.1.memory = cm.memory ∧
    (ExecutorAgent.execute task none b cm).2.1.state = cm.state :=
  ⟨rfl, rfl, rfl, rfl, rfl⟩

/-! ## Claim C9 -/

lemma find?_setMemoryList_self_key (item : MemoryItem) (k : String)
    (hk : item.key = k) (l : List MemoryItem) :
    (setMemoryList item l).find? (fun m => m.key == k) = some item := by
  subst hk
  exact find?_setMemoryList_self item l

lemma countP_setMemoryList_key (item : MemoryItem) (k : String)
    (hk : item.key = k) (l : List MemoryItem) (hnd : (l.map (·.key)).Nodup) :
    (setMemoryList item l).countP (fun m => m.key == k) = 1 := by
  subst hk
  exact countP_key_setMemoryList item l hnd

lemma filter_ne_setMemoryList_key (item : MemoryItem) (k : String)
    (hk : item.key = k) (l : List MemoryItem) :
    (setMemoryList item l).filter (fun m => m.key != k) =
      l.filter (fun m => m.key != k) := by
  subst hk
  exact filter_ne_setMemoryList item l

/-- C9: memory is last-write-wins per key.  After `setMemory k v1 s1` then
`setMemory k v2 s2` (on a store with distinct keys, as every reachable store
has), `getMemory k` returns `v2`, exactly one memory item with key `k`
exists, and entries for other keys are unaffected — both their lookups and
the item list itself. -/
theorem C9 (cm : ContextManager) (k : String) (v1 v2 : Value)
    (s1 s2 : AgentRole) (hnd : (cm.memory.map (·.key)).Nodup) :
    ((cm.setMemory k v1 s1).setMemory k v2 s2).getMemory k = some v2 ∧
    (((cm.setMemory k v1 s1).setMemory k v2 s2).memory.filter
      (fun m => m.key == k)).length = 1 ∧
    (∀ k2, k2 ≠ k →
      ((cm.setMemory k v1 s1).setMemory k v2 s2).getMemory k2 = cm.getMemory k2) ∧
    ((cm.setMemory k v1 s1).setMemory k v2 s2).memory.filter (fun m => m.key != k) =
      cm.memory.filter (fun m => m.key != k) := by
  refine ⟨?_, ?_, ?_, ?_⟩
  · rw [getMemory_def, setMemory_memory, setMemory_memory]
    rw [find?_setMemoryList_self_key _ k rfl]
    rfl
  · rw [setMemory_memory, setMemory_memory, ← List.countP_eq_length_filter]
    exact countP_setMemoryList_key _ k rfl _
      (keys_nodup_setMemoryList _ cm.memory hnd)
  · intro k2 hk2
    rw [getMemory_def, getMemory_def, setMemory_memory, setMemory_memory]
    rw [find?_setMemoryList_ne _ k2 hk2, find?_setMemoryList_ne _ k2 hk2]
  · rw [setMemory_memory, setMemory_memory]
    rw [filter_ne_setMemoryList_key _ k rfl, filter_ne_setMemoryList_key _ k rfl]

/-- Witness for `C9` on the empty store. -/
theorem C9_witness :
    (((ContextManager.init "g").memory.map (·.key)).Nodup) ∧
    (((ContextManager.init "g").setMemory "k" (.num 1) .planner).setMemory "k"
      (.num 2) .executor).getMemory "k" = some (.num 2) ∧
    ((((ContextManager.init "g").setMemory "k" (.num 1) .planner).setMemory "k"
      (.num 2) .executor).memory.filter (fun m => m.key == "k")).length = 1 :=
  ⟨by decide,
   (C9 (ContextManager.init "g") "k" (.num 1) (.num 2) .planner .executor
     (by decide)).1,
   (C9 (ContextManager.init "g") "k" (.num 1) (.num 2) .planner .executor
     (by decide)).2.1⟩

/-! ## Claim C10 -/

/-- C10: `getNextTask` only ever returns a task whose status is `pending` or
`approved`, so a task the orchestrator marked `failed` is never selected
again; under the id-uniqueness invariant it remains in `pendingTasks`
(unchanged, still `failed`) for the rest of the loop; and consequently a run
whose final context contains a failed pending task reports
`success = false`. -/
theorem C10 :
    (∀ (cm : ContextManager) (t : Task), cm.getNextTask = some t →
      t.status = .pending ∨ t.status = .approved) ∧
    (∀ cfg oIt fuel it rc (st : OrchState) (t : Task), TasksInv st.cm →
      t ∈ st.cm.pendingTasks → t.status = .failed →
      t ∈ (runLoop cfg oIt fuel it rc st).cm.pendingTasks) ∧
    (∀ goal cfg o (t : Task),
      t ∈ (Orchestrator.run goal cfg o).2.cm.pendingTasks → t.status = .failed →
      (Orchestrator.run goal cfg o).1.success = false) := by
  refine ⟨?_, ?_, ?_⟩
  · intro cm t h
    exact getNextTask_status h
  · intro cfg oIt fuel it rc st t hinv hm hst
    exact failed_persist_runLoop cfg oIt fuel it rc st t hinv hm hst
  · intro goal cfg o t hm _
    rw [run_success_def]
    have hne : (Orchestrator.run goal cfg o).2.cm.pendingTasks ≠ [] :=
      List.ne_nil_of_mem hm
    have hlen : (Orchestrator.run goal cfg o).2.cm.pendingTasks.length ≠ 0 := by
      simpa [List.length_eq_zero] using hne
    exact beq_eq_false_iff_ne.mpr hlen

/-- A concrete failed task and loop state for the C10 witness. -/
def failedTask : Task := { cTask with status := .failed }

def stWithFailed : OrchState :=
  { cm := { ContextManager.init "g" with pendingTasks := [failedTask] }
    messages := [] }

/-- Witness for `C10`: a failed task survives a full loop. -/
theorem C10_witness :
    failedTask ∈ (runLoop DEFAULT_CONFIG (fun _ => rejectIter) 15 0 0
      stWithFailed).cm.pendingTasks :=
  C10.2.1 DEFAULT_CONFIG (fun _ => rejectIter) 15 0 0 stWithFailed failedTask
    (by decide) (by decide) rfl

end Starlight
